import Mathlib

/-!
Verification of the `use-form-state` form-state manager.

The development shallowly embeds the validation/state-update engine of the
repository: the utility layer (`checkIfRequiredValueFilled`,
`deepCloneValue`, `cloneFormState`, `getOrderedValidationEntries`,
`getFieldValidationOutcome`, `applyValidation`, `createInitialStateSnapshot`)
and the hook layer (`clearPendingValidation`, `scheduleValidationRun`, `set`,
`setMany`, `checkIfAllValid`, the debounce timer callback).

Modelling conventions:
- JavaScript runtime values are the inductive `Value`.  Numbers are modelled
  as NaN / +Infinity / -Infinity / finite rationals; plain objects carry only
  their own enumerable string-keyed entries (an object that has nothing but
  inherited properties is `Value.obj []`, since `Object.keys` and
  `Object.entries` never see inherited properties); blobs are opaque.
- JavaScript objects used as records (`FormState`, `FormFieldParams`, a
  `validation` map) are association lists in insertion order, matching
  `for ... in` / `Object.keys` iteration order for non-integer string keys.
- Code that dereferences a possibly-`undefined` lookup (which would raise a
  `TypeError` at run time) is modelled with `Option`: `none` is a crash.
- The React hook's mutable refs and `useState` cell are modelled as the
  explicit record `HookState`; `setState` updaters are applied synchronously,
  following the cooperative single-threaded execution model, and the
  `setTimeout` callback of the debounce is the separate step `fireTimer`.
-/

namespace UseFormState

/-- A JavaScript number: NaN, an infinity, or a finite value. -/
inductive JSNumber where
  | nan
  | posInf
  | negInf
  | finite (q : ℚ)
deriving DecidableEq

/-- A JavaScript runtime value, covering every case distinguished by the
repository's value-handling code (`checkIfRequiredValueFilled`,
`deepCloneValue`, `appendToFormData`). -/
inductive Value where
  | num (n : JSNumber)
  | str (s : String)
  | bool (b : Bool)
  | null
  | undef
  | arr (xs : List Value)
  /-- A `Date`; `getTime` is `some t` for a valid date and `none` for an
  invalid date (whose `getTime()` is NaN). -/
  | date (time : Option Int)
  | map (entries : List (Value × Value))
  | set (elems : List Value)
  | fileList (files : List String)
  | blob (id : Nat)
  /-- A plain object: its own enumerable string-keyed entries, in insertion
  order.  Inherited properties are invisible to `Object.keys` and
  `Object.entries`, so they are not represented. -/
  | obj (entries : List (String × Value))

/-- Source: `checkIfRequiredValueFilled` (utils).  Decides whether a value
satisfies a `required` constraint, by `typeof` and instance checks, in the
source's branch order.  Note the source's `case "boolean": return true;`:
every boolean is filled, including `false`.  A `Blob` reaches the final
`Object.keys(value).length > 0` branch and has no own enumerable keys, so it
is never filled. -/
def checkIfRequiredValueFilled : Value → Bool
  | .num .nan => false
  | .num .posInf => false
  | .num .negInf => false
  | .num (.finite _) => true
  | .arr xs => decide (xs.length > 0)
  | .null => false
  | .date time => time.isSome
  | .map entries => decide (entries.length > 0)
  | .set elems => decide (elems.length > 0)
  | .fileList files => decide (files.length > 0)
  | .blob _ => false
  | .obj entries => decide (entries.length > 0)
  | .bool _ => true
  | .str s => decide (s ≠ "")
  | .undef => false

/-- Source: `deepCloneValue` (utils).  In the source this tries
`structuredClone` and falls back to a manual structural clone (dates, maps,
sets, file lists, arrays, plain objects recursively; blobs by reference;
primitives as-is).  On the immutable `Value` model both paths are the
structural rebuild below. -/
def deepCloneValue : Value → Value
  | .num n => .num n
  | .str s => .str s
  | .bool b => .bool b
  | .null => .null
  | .undef => .undef
  | .date t => .date t
  | .map es => .map (es.attach.map fun ⟨(k, v), _⟩ => (deepCloneValue k, deepCloneValue v))
  | .set xs => .set (xs.attach.map fun ⟨v, _⟩ => deepCloneValue v)
  | .fileList fs => .fileList fs
  | .blob i => .blob i
  | .arr xs => .arr (xs.attach.map fun ⟨v, _⟩ => deepCloneValue v)
  | .obj es => .obj (es.attach.map fun ⟨(k, v), _⟩ => (k, deepCloneValue v))
decreasing_by
  all_goals simp_wf
  all_goals rename_i h
  all_goals have hlt := List.sizeOf_lt_of_mem h
  all_goals simp at hlt ⊢
  all_goals omega

/-- Source: the `error` component of `FormFieldState` (types):
`error?: { type?: string; message?: string }`. -/
structure FieldError where
  type : Option String
  message : Option String
deriving DecidableEq

/-- Source: `FormFieldState` (types). -/
structure FormFieldState where
  label : String
  value : Value
  isValid : Bool
  isInteracted : Bool
  isRequired : Bool
  helperText : Option String
  error : Option FieldError

/-- Source: `FormState<Data>` (types) — one `FormFieldState` per field key.
Modelled as an association list in insertion order, matching `for ... in`
iteration over the backing object. -/
abbrev FormState : Type := List (String × FormFieldState)

/-- Source: one entry of `ValidationParams` (types):
`{ validator, message?, order? }`.  `order` is modelled as an integer. -/
structure ValidationRuleParams where
  validator : Value → FormState → Bool
  message : Option String
  order : Option Int

/-- Source: `ValidationParams` (types) — the named validation rules of one
field, in declaration order. -/
abbrev ValidationParams : Type := List (String × ValidationRuleParams)

/-- Source: `required?: { message: string }` in `FormFieldParams` (types). -/
structure RequiredParams where
  message : String
deriving DecidableEq

/-- Source: one entry of `FormFieldParams` (types). -/
structure FieldParams where
  defaultValue : Value
  required : Option RequiredParams
  validation : Option ValidationParams
  label : Option String
  helperText : Option String

/-- Source: `FormFieldParams<Data>` (types), as an association list in
declaration order. -/
abbrev FormFieldParams : Type := List (String × FieldParams)

/-- Source: `cloneFormState` (utils).  Copies every field record with a deep
clone of its `value`; the `Object.freeze` calls have no observable effect in
the immutable model. -/
def cloneFormState (state : FormState) : FormState :=
  state.map fun p => (p.1, { p.2 with value := deepCloneValue p.2.value })

/-- Source: the decorated entries built inside `getOrderedValidationEntries`:
`{ entry: [key, params], order: params.order ?? index, index }`. -/
structure DecoratedValidationEntry where
  entry : String × ValidationRuleParams
  order : Int
  index : Nat

/-- The boolean comparison realised by the source's sort comparator
`(a, b) => a.order !== b.order ? a.order - b.order : a.index - b.index`:
ascending effective order, ties broken by ascending index.  Sorting with
this total order produces exactly the comparator's unique sorted
arrangement. -/
def decoratedLE (a b : DecoratedValidationEntry) : Bool :=
  a.order < b.order || (a.order == b.order && a.index ≤ b.index)

/-- Source: the `entriesWithOrder` construction inside
`getOrderedValidationEntries` (utils): each rule is decorated with its
effective order `params.order ?? index` and its declaration index. -/
def decorateValidationEntries (validationParams : ValidationParams) :
    List DecoratedValidationEntry :=
  validationParams.enum.map fun p =>
    { entry := p.2, order := p.2.2.order.getD (Int.ofNat p.1), index := p.1 }

/-- Source: `getOrderedValidationEntries` (utils).  Decorates each rule with
its effective order (`params.order ?? index`) and declaration index, sorts by
effective order with declaration index as tie-break, and strips the
decoration. -/
def getOrderedValidationEntries (validationParams : ValidationParams) :
    List (String × ValidationRuleParams) :=
  ((decorateValidationEntries validationParams).mergeSort decoratedLE).map (·.entry)

/-- Source: the `FieldValidationResult` type alias (utils). -/
structure FieldValidationResult where
  isValid : Bool
  error : Option FieldError
deriving DecidableEq

/-- Source: the `.every` loop inside `getFieldValidationOutcome` (utils).
`Array.prototype.every` stops at the first rule whose validator returns
false, so `validationError` is the first failing rule's error.  The
source's `message || ""` collapses both a missing and an empty message to
`""`, which is exactly `Option.getD ""` on the model. -/
def runValidationRules (value : Value) (state : FormState) :
    List (String × ValidationRuleParams) → FieldValidationResult
  | [] => ⟨true, none⟩
  | (validationType, rule) :: rest =>
    if rule.validator value state then runValidationRules value state rest
    else ⟨false, some ⟨some validationType, some (rule.message.getD "")⟩⟩

/-- Source: `getFieldValidationOutcome` (utils).  The lookups
`formFieldParams[key]` and `state[key]` are dereferenced unconditionally in
the source, so a missing key is a crash (`none`).  An empty `validation`
object is still truthy in the source, hence the `some rules` branch runs the
rule loop even for `some []`. -/
def getFieldValidationOutcome (key : String) (formFieldParams : FormFieldParams)
    (state : FormState) : Option FieldValidationResult :=
  match formFieldParams.lookup key, state.lookup key with
  | some fieldParams, some fieldState =>
    if fieldState.isRequired && !checkIfRequiredValueFilled fieldState.value then
      some ⟨false, some ⟨some "required", fieldParams.required.map RequiredParams.message⟩⟩
    else
      match fieldParams.validation with
      | some rules =>
        some (runValidationRules fieldState.value state (getOrderedValidationEntries rules))
      | none => some ⟨true, none⟩
  | _, _ => none

/-- The per-entry loop body of `applyValidation` (utils), recursing over the
snapshot's entries in iteration order.  The accumulated `allValid` flag is
the conjunction of the fresh `isValid` results (the source folds it left to
right; conjunction order is immaterial). -/
def applyValidationAux (formFieldParams : FormFieldParams) (stateSnapshot : FormState)
    (updateErrorType : Option Bool) :
    List (String × FormFieldState) → Option (List (String × FormFieldState) × Bool)
  | [] => some ([], true)
  | (key, prevFieldState) :: rest =>
    match getFieldValidationOutcome key formFieldParams stateSnapshot with
    | none => none
    | some outcome =>
      match applyValidationAux formFieldParams stateSnapshot updateErrorType rest with
      | none => none
      | some (tail, allValidRest) =>
        let shouldUpdateErrorType := updateErrorType.getD prevFieldState.isInteracted
        some ((key, { prevFieldState with
                isValid := outcome.isValid,
                error := if shouldUpdateErrorType then outcome.error
                         else prevFieldState.error }) :: tail,
              outcome.isValid && allValidRest)

/-- Source: `applyValidation` (utils).  Clones the state into a frozen
snapshot, resolves every field's outcome against that one snapshot, writes
`isValid` unconditionally and `error` under the
`updateErrorType ?? isInteracted` guard, and conjoins `allValid`. -/
def applyValidation (currentState : FormState) (formFieldParams : FormFieldParams)
    (updateErrorType : Option Bool) : Option (FormState × Bool) :=
  let stateSnapshot := cloneFormState currentState
  applyValidationAux formFieldParams stateSnapshot updateErrorType stateSnapshot

/-- The field record built by the first loop of `createInitialStateSnapshot`
(utils): cloned default value, `label || ""`, copied helper text,
`isValid: false`, `isInteracted: false`, `isRequired: !!required`,
`error: undefined`.  The source's `label || ""` collapses both a missing and
an empty label to `""`, which is `Option.getD ""` on the model. -/
def initialFieldState (params : FieldParams) : FormFieldState :=
  { value := deepCloneValue params.defaultValue,
    label := params.label.getD "",
    helperText := params.helperText,
    isValid := false,
    isInteracted := false,
    isRequired := params.required.isSome,
    error := none }

/-- The in-place write `snapshot[fieldKey].isValid = isValid` of the second
loop of `createInitialStateSnapshot` (utils). -/
def setFieldIsValid (key : String) (isValid : Bool) (state : FormState) : FormState :=
  state.map fun p => if p.1 = key then (p.1, { p.2 with isValid := isValid }) else p

/-- The second loop of `createInitialStateSnapshot` (utils): for each params
key in declaration order, resolve the field's outcome against the snapshot
as mutated so far and write its `isValid` back in place. -/
def initialValidationPass (formFieldParams : FormFieldParams) :
    List String → FormState → Option FormState
  | [], snapshot => some snapshot
  | key :: rest, snapshot =>
    match getFieldValidationOutcome key formFieldParams snapshot with
    | none => none
    | some outcome =>
      initialValidationPass formFieldParams rest (setFieldIsValid key outcome.isValid snapshot)

/-- Source: `createInitialStateSnapshot` (utils).  Assembles the initial
field records, then runs one validation pass over the assembled snapshot
that writes only `isValid` (never `error`). -/
def createInitialStateSnapshot (formFieldParams : FormFieldParams) : Option FormState :=
  initialValidationPass formFieldParams (formFieldParams.map Prod.fst)
    (formFieldParams.map fun p => (p.1, initialFieldState p.2))

/-!
The hook layer (`src/use-form-state/index.ts`).  The `useState` cell, the
schedule ref `{ timer, runId }` and the staged-state ref are gathered in
`HookState`; `timer` holds the `runId` captured by the currently scheduled
timeout callback (`none` when no timeout is scheduled), and a fired or
cleared timeout can never fire again.
-/

/-- The mutable cells of one mounted `useFormState` instance. -/
structure HookState where
  state : FormState
  runId : Nat
  timer : Option Nat
  pending : Option FormState

/-- Source: `DEFAULT_ERROR_DELAY_SECONDS` (index). -/
def DEFAULT_ERROR_DELAY_SECONDS : ℚ := 1 / 2

/-- Source: `clearPendingValidation` (index): bump the run id so stale
callbacks no-op, drop the staged error state, and clear the timer. -/
def clearPendingValidation (h : HookState) : HookState :=
  { h with runId := h.runId + 1, pending := none, timer := none }

/-- The `immediateState` construction inside `scheduleValidationRun` (index):
every field of the freshly validated state, with its `error` taken from the
previous live state (`prevState[k].error`; a key missing from the previous
state would be a crash). -/
def withPreviousErrors (nextState prevState : FormState) : Option FormState :=
  match nextState with
  | [] => some []
  | (key, fs) :: rest =>
    match prevState.lookup key with
    | none => none
    | some prev =>
      match withPreviousErrors rest prevState with
      | none => none
      | some tail => some ((key, { fs with error := prev.error }) :: tail)

/-- Source: `scheduleValidationRun` (index).  Cancels any outstanding commit,
validates immediately, and either commits the result at once (zero delay or
`updateErrorType === false`) or exposes it with the previous errors kept,
stages the full result, and schedules the timeout under the captured run
id. -/
def scheduleValidationRun (formFieldParams : FormFieldParams)
    (errorUpdateDelayInSeconds : ℚ) (updateErrorType : Option Bool)
    (h : HookState) : Option HookState :=
  let h1 := clearPendingValidation h
  let runId := h1.runId
  let shouldDelayErrorUpdate :=
    decide (errorUpdateDelayInSeconds > 0) && !(updateErrorType == some false)
  match applyValidation h1.state formFieldParams updateErrorType with
  | none => none
  | some (nextState, _) =>
    if !shouldDelayErrorUpdate then
      some { h1 with state := nextState, pending := none }
    else
      match withPreviousErrors nextState h1.state with
      | none => none
      | some immediateState =>
        some { h1 with state := immediateState, pending := some nextState,
                       timer := some runId }

/-- The debounce timeout callback scheduled by `scheduleValidationRun`
(index): if the captured run id is still current and a staged state exists,
commit it; otherwise do nothing.  Firing always consumes the timeout. -/
def fireTimer (h : HookState) : HookState :=
  match h.timer with
  | none => h
  | some captured =>
    if captured = h.runId then
      match h.pending with
      | some pending => { h with timer := none, pending := none, state := pending }
      | none => { h with timer := none }
    else { h with timer := none }

/-- The `setState` updater of `set` (index): overwrite the field's value and,
if requested, mark it interacted.  The source writes `_state[key].value`
without an existence check, so an unknown key is a crash (`none`). -/
def updateFieldValue (key : String) (value : Value) (setInteracted : Bool)
    (state : FormState) : Option FormState :=
  match state.lookup key with
  | none => none
  | some _ =>
    some (state.map fun p =>
      if p.1 = key then
        (p.1, { p.2 with value := value,
                         isInteracted := p.2.isInteracted || setInteracted })
      else p)

/-- Source: `set` (index): update one field, then run the validation flow
with `updateErrorType` forced to `true` when the field was marked
interacted and left unset otherwise. -/
def set (formFieldParams : FormFieldParams) (errorUpdateDelayInSeconds : ℚ)
    (key : String) (value : Value) (setInteracted : Bool) (h : HookState) :
    Option HookState :=
  match updateFieldValue key value setInteracted h.state with
  | none => none
  | some st =>
    let updateErrorType : Option Bool := if setInteracted then some true else none
    scheduleValidationRun formFieldParams errorUpdateDelayInSeconds updateErrorType
      { h with state := st }

/-- The `setState` updater of `setMany` (index): the `forEach` over the
partial data, each step writing `_state[key].value` without an existence
check. -/
def updateManyFieldValues (setInteracted : Bool) :
    List (String × Value) → FormState → Option FormState
  | [], state => some state
  | (key, value) :: rest, state =>
    match updateFieldValue key value setInteracted state with
    | none => none
    | some st => updateManyFieldValues setInteracted rest st

/-- Source: `setMany` (index). -/
def setMany (formFieldParams : FormFieldParams) (errorUpdateDelayInSeconds : ℚ)
    (data : List (String × Value)) (setInteracted : Bool) (h : HookState) :
    Option HookState :=
  match updateManyFieldValues setInteracted data h.state with
  | none => none
  | some st =>
    let updateErrorType : Option Bool := if setInteracted then some true else none
    scheduleValidationRun formFieldParams errorUpdateDelayInSeconds updateErrorType
      { h with state := st }

/-- Source: `checkIfAllValid` (index).  Options default to `true`.  Without
`commitState` it only computes `allValid` against the current state; with it
it cancels pending work, commits a fresh validation pass, and returns that
pass's `allValid`. -/
def checkIfAllValid (formFieldParams : FormFieldParams)
    (updateErrorTypeOpt commitStateOpt : Option Bool) (h : HookState) :
    Option (Bool × HookState) :=
  let updateErrorType := updateErrorTypeOpt.getD true
  let commitState := commitStateOpt.getD true
  if !commitState then
    match applyValidation h.state formFieldParams (some updateErrorType) with
    | none => none
    | some (_, allValid) => some (allValid, h)
  else
    let h1 := clearPendingValidation h
    match applyValidation h1.state formFieldParams (some updateErrorType) with
    | none => none
    | some (nextState, allValid) => some (allValid, { h1 with state := nextState })

/-- Source: `reset` (index): cancel pending work and rebuild the state from
the field params. -/
def reset (formFieldParams : FormFieldParams) (h : HookState) : Option HookState :=
  match createInitialStateSnapshot formFieldParams with
  | none => none
  | some st => some { clearPendingValidation h with state := st }

/-! ### The specified required-check table, and concrete fixtures -/

/-- The required-check table of the specification (its §4.1), exactly as the
specification words it: numbers are filled unless NaN or infinite, strings
and booleans are filled iff truthy, collections iff non-empty, dates iff
valid, plain objects iff they have an own enumerable key, null/undefined
never.  An opaque blob (a case the table does not name) takes the code's
dispatch to the own-enumerable-keys branch.  This definition follows the
specification's words, to be compared against
`checkIfRequiredValueFilled`. -/
def specIsFilled : Value → Bool
  | .num .nan => false
  | .num .posInf => false
  | .num .negInf => false
  | .num (.finite _) => true
  | .str s => decide (s ≠ "")
  | .bool b => b
  | .arr xs => decide (xs.length ≠ 0)
  | .fileList files => decide (files.length ≠ 0)
  | .date time => time.isSome
  | .map entries => decide (entries.length ≠ 0)
  | .set elems => decide (elems.length ≠ 0)
  | .obj entries => decide (entries.length ≠ 0)
  | .blob _ => false
  | .null => false
  | .undef => false

/-- The table of `specIsFilled` amended at exactly one row: booleans are
always filled, matching the source's `case "boolean": return true`. -/
def specIsFilledAmended : Value → Bool
  | .num .nan => false
  | .num .posInf => false
  | .num .negInf => false
  | .num (.finite _) => true
  | .str s => decide (s ≠ "")
  | .bool _ => true
  | .arr xs => decide (xs.length ≠ 0)
  | .fileList files => decide (files.length ≠ 0)
  | .date time => time.isSome
  | .map entries => decide (entries.length ≠ 0)
  | .set elems => decide (elems.length ≠ 0)
  | .obj entries => decide (entries.length ≠ 0)
  | .blob _ => false
  | .null => false
  | .undef => false

/-- Concrete fixture: an optional field with no validation rules. -/
def plainFieldParams : FieldParams :=
  { defaultValue := .str "", required := none, validation := none,
    label := none, helperText := none }

/-- Concrete fixture: a required field with a fixed message. -/
def requiredFieldParams : FieldParams :=
  { defaultValue := .str "", required := some ⟨"required!"⟩, validation := none,
    label := some "L", helperText := none }

/-- Concrete fixture: a field state for the optional field, not yet
validated. -/
def plainFieldState : FormFieldState :=
  { label := "", value := .str "x", isValid := false, isInteracted := false,
    isRequired := false, helperText := none, error := none }

/-- Concrete fixture: the state of the required field while empty. -/
def requiredEmptyFieldState : FormFieldState :=
  { label := "L", value := .str "", isValid := false, isInteracted := false,
    isRequired := true, helperText := none, error := none }

/-- Concrete fixture: a one-field form's params. -/
def plainFormParams : FormFieldParams := [("a", plainFieldParams)]

/-- Concrete fixture: a one-field form's state. -/
def plainFormState : FormState := [("a", plainFieldState)]

/-- Concrete fixture: the one-field form after a validation pass. -/
def plainFormValidated : FormState :=
  [("a", { plainFieldState with isValid := true })]

/-- Concrete fixture: an always-failing rule declared first with explicit
order 2. -/
def failingRuleOrderTwo : ValidationRuleParams :=
  { validator := fun _ _ => false, message := some "A failed", order := some 2 }

/-- Concrete fixture: an always-failing rule declared second with explicit
order 1. -/
def failingRuleOrderOne : ValidationRuleParams :=
  { validator := fun _ _ => false, message := some "B failed", order := some 1 }

/-- Concrete fixture: a field carrying the two explicitly ordered failing
rules. -/
def orderedFieldParams : FieldParams :=
  { defaultValue := .str "", required := none,
    validation := some [("ruleA", failingRuleOrderTwo), ("ruleB", failingRuleOrderOne)],
    label := none, helperText := none }

/-- Concrete fixture: a one-field form with the ordered rules. -/
def orderedFormParams : FormFieldParams := [("a", orderedFieldParams)]

/-- Concrete fixture: a rule failing exactly on the string "bad". -/
def notBadRule : ValidationRuleParams :=
  { validator := fun v _ => match v with | .str "bad" => false | _ => true,
    message := some "value is bad", order := none }

/-- Concrete fixture: a field guarded by `notBadRule`. -/
def guardedFieldParams : FieldParams :=
  { defaultValue := .str "", required := none,
    validation := some [("notBad", notBadRule)], label := none, helperText := none }

/-- Concrete fixture: a one-field form guarded by `notBadRule`. -/
def guardedFormParams : FormFieldParams := [("a", guardedFieldParams)]

/-- Concrete fixture: a mounted hook at rest. -/
def idleHook : HookState :=
  { state := plainFormState, runId := 0, timer := none, pending := none }

/-- Concrete fixture: the guarded field carrying the failing value. -/
def badFieldState : FormFieldState :=
  { label := "", value := .str "bad", isValid := false, isInteracted := true,
    isRequired := false, helperText := none, error := none }

/-- Concrete fixture: the staged (not yet visible) state with the failing
value's error materialized. -/
def badErrorState : FormState :=
  [("a", { badFieldState with error := some ⟨some "notBad", some "value is bad"⟩ })]

/-- Concrete fixture: the hook right after the first (failing) edit. -/
def debouncedHook1 : HookState :=
  { state := [("a", badFieldState)], runId := 1, timer := some 1,
    pending := some badErrorState }

/-- Concrete fixture: the guarded field carrying the passing value. -/
def goodFieldState : FormFieldState :=
  { label := "", value := .str "good", isValid := false, isInteracted := true,
    isRequired := false, helperText := none, error := none }

/-- Concrete fixture: the fully validated state of the passing value. -/
def goodValidState : FormState :=
  [("a", { goodFieldState with isValid := true })]

/-- Concrete fixture: the hook right after the second (passing) edit. -/
def debouncedHook2 : HookState :=
  { state := goodValidState, runId := 2, timer := some 2,
    pending := some goodValidState }

/-- Concrete fixture: a hook with a pending timeout and staged state. -/
def staleHook : HookState :=
  { state := plainFormState, runId := 0, timer := some 0,
    pending := some plainFormState }

/-- Concrete fixture: the hook after a committing `checkIfAllValid`. -/
def committedHook : HookState :=
  { state := plainFormValidated, runId := 1, timer := none, pending := none }

/-! ### Theorems -/

/-- Cloning is the identity on the immutable value model. -/
theorem deepCloneValue_eq (v : Value) : deepCloneValue v = v := by
  induction v using deepCloneValue.induct with
  | case7 es ihk ihv =>
    simp only [deepCloneValue]
    congr 1
    refine Eq.trans (List.attach_map_val es fun p => (deepCloneValue p.1, deepCloneValue p.2)) ?_
    refine Eq.trans (List.map_congr_left ?_) (List.map_id' es)
    intro p hp
    obtain ⟨k, w⟩ := p
    simp [ihk k w hp, ihv k w hp]
  | case8 xs ih =>
    simp only [deepCloneValue]
    congr 1
    exact Eq.trans (List.attach_map_val xs deepCloneValue)
      (Eq.trans (List.map_congr_left ih) (List.map_id' xs))
  | case11 xs ih =>
    simp only [deepCloneValue]
    congr 1
    exact Eq.trans (List.attach_map_val xs deepCloneValue)
      (Eq.trans (List.map_congr_left ih) (List.map_id' xs))
  | case12 es ihv =>
    simp only [deepCloneValue]
    congr 1
    refine Eq.trans (List.attach_map_val es fun p => (p.1, deepCloneValue p.2)) ?_
    refine Eq.trans (List.map_congr_left ?_) (List.map_id' es)
    intro p hp
    obtain ⟨k, w⟩ := p
    simp [ihv k w hp]
  | _ => simp only [deepCloneValue]

/-- Snapshotting is the identity on the immutable state model. -/
theorem cloneFormState_eq (state : FormState) : cloneFormState state = state := by
  show state.map _ = state
  refine Eq.trans (List.map_congr_left ?_) (List.map_id' state)
  intro p _
  simp [deepCloneValue_eq]

/-! ### General lemmas about the rule loop and the ordering -/

/-- The rule loop's validity flag is the conjunction of all validators. -/
theorem runValidationRules_isValid_eq_all (v : Value) (st : FormState)
    (l : List (String × ValidationRuleParams)) :
    (runValidationRules v st l).isValid = l.all fun e => e.2.validator v st := by
  induction l with
  | nil => rfl
  | cons e rest ih =>
    obtain ⟨name, rule⟩ := e
    cases hpass : rule.validator v st with
    | true => simpa [runValidationRules, hpass] using ih
    | false => simp [runValidationRules, hpass]

/-- A passing rule loop reports no error. -/
theorem runValidationRules_of_isValid (v : Value) (st : FormState)
    (l : List (String × ValidationRuleParams))
    (h : (runValidationRules v st l).isValid = true) :
    runValidationRules v st l = ⟨true, none⟩ := by
  induction l with
  | nil => rfl
  | cons e rest ih =>
    obtain ⟨name, rule⟩ := e
    cases hpass : rule.validator v st with
    | true =>
      rw [runValidationRules, if_pos hpass] at h ⊢
      exact ih h
    | false => simp [runValidationRules, hpass] at h

/-- A failing rule loop reports the error of the first failing rule: the
input splits into a passing prefix, the failing rule whose name and message
are reported, and an arbitrary remainder.  Stated over a decorated list so
the decoration of the reported rule is recovered. -/
theorem runValidationRules_map_entry_fail (v : Value) (st : FormState)
    (l : List DecoratedValidationEntry)
    (h : (runValidationRules v st (l.map (·.entry))).isValid = false) :
    ∃ l1 d l2, l = l1 ++ d :: l2 ∧
      (∀ d1 ∈ l1, d1.entry.2.validator v st = true) ∧
      d.entry.2.validator v st = false ∧
      runValidationRules v st (l.map (·.entry))
        = ⟨false, some ⟨some d.entry.1, some (d.entry.2.message.getD "")⟩⟩ := by
  induction l with
  | nil => simp [runValidationRules] at h
  | cons d rest ih =>
    cases hpass : d.entry.2.validator v st with
    | true =>
      rw [List.map_cons, runValidationRules, if_pos hpass] at h
      obtain ⟨l1, d0, l2, hsplit, hpre, hfail, herr⟩ := ih h
      refine ⟨d :: l1, d0, l2, by rw [hsplit]; rfl, ?_, hfail, ?_⟩
      · intro d1 hd1
        rcases List.mem_cons.mp hd1 with h1 | h1
        · rw [h1]; exact hpass
        · exact hpre d1 h1
      · rw [List.map_cons, runValidationRules, if_pos hpass]
        exact herr
    | false =>
      refine ⟨[], d, rest, rfl, by simp, hpass, ?_⟩
      rw [List.map_cons, runValidationRules, if_neg (by simp [hpass])]

/-- The comparison realised by the sort comparator is transitive. -/
theorem decoratedLE_trans (a b c : DecoratedValidationEntry)
    (h1 : decoratedLE a b = true) (h2 : decoratedLE b c = true) :
    decoratedLE a c = true := by
  simp only [decoratedLE, Bool.or_eq_true, Bool.and_eq_true, decide_eq_true_eq,
    beq_iff_eq] at h1 h2 ⊢
  omega

/-- The comparison realised by the sort comparator is total. -/
theorem decoratedLE_total (a b : DecoratedValidationEntry) :
    (decoratedLE a b || decoratedLE b a) = true := by
  simp only [decoratedLE, Bool.or_eq_true, Bool.and_eq_true, decide_eq_true_eq,
    beq_iff_eq]
  omega

/-- A decorated entry records a rule of the original list at its recorded
declaration index, with its recorded effective order. -/
theorem mem_decorateValidationEntries (rules : ValidationParams)
    (d : DecoratedValidationEntry) (h : d ∈ decorateValidationEntries rules) :
    rules[d.index]? = some d.entry
      ∧ d.order = d.entry.2.order.getD (Int.ofNat d.index) := by
  obtain ⟨p, hp, hd⟩ := List.mem_map.mp h
  have := List.mem_enum_iff_getElem?.mp hp
  subst hd
  exact ⟨this, rfl⟩

/-- Every rule occurrence appears in the decorated list. -/
theorem decorateValidationEntries_mem (rules : ValidationParams) (i : Nat)
    (e : String × ValidationRuleParams) (h : rules[i]? = some e) :
    ({ entry := e, order := e.2.order.getD (Int.ofNat i), index := i :
       DecoratedValidationEntry }) ∈ decorateValidationEntries rules := by
  exact List.mem_map.mpr ⟨(i, e), List.mem_enum_iff_getElem?.mpr h, rfl⟩

/-- Distinct decorated entries carry distinct declaration indexes. -/
theorem decorateValidationEntries_index_inj (rules : ValidationParams)
    (d1 d2 : DecoratedValidationEntry) (h1 : d1 ∈ decorateValidationEntries rules)
    (h2 : d2 ∈ decorateValidationEntries rules) (hidx : d1.index = d2.index) :
    d1 = d2 := by
  obtain ⟨hg1, ho1⟩ := mem_decorateValidationEntries rules d1 h1
  obtain ⟨hg2, ho2⟩ := mem_decorateValidationEntries rules d2 h2
  rw [hidx] at hg1 ho1
  rw [hg2] at hg1
  obtain ⟨e1, o1, i1⟩ := d1
  obtain ⟨e2, o2, i2⟩ := d2
  simp_all

/-- The decorated list has no duplicate entries. -/
theorem decorateValidationEntries_nodup (rules : ValidationParams) :
    (decorateValidationEntries rules).Nodup := by
  refine List.Nodup.map ?_ ?_
  · intro p q hpq
    have h1 : p.1 = q.1 := congrArg DecoratedValidationEntry.index hpq
    have h2 : p.2 = q.2 := congrArg DecoratedValidationEntry.entry hpq
    exact Prod.ext h1 h2
  · apply List.Nodup.of_map Prod.fst
    rw [List.enum_map_fst]
    exact List.nodup_range _

/-- Stripping the decoration recovers the declaration list. -/
theorem decorateValidationEntries_map_entry (rules : ValidationParams) :
    (decorateValidationEntries rules).map (·.entry) = rules := by
  rw [decorateValidationEntries, List.map_map]
  exact List.enum_map_snd rules

/-- Strict precedence between two rules under the resolved ordering: a
strictly smaller effective order, or the same effective order with a
strictly smaller declaration index. -/
def effOrderLt (o1 : Int) (i1 : Nat) (o2 : Int) (i2 : Nat) : Prop :=
  o1 < o2 ∨ (o1 = o2 ∧ i1 < i2)

/-- The resolved rule list passes as a whole exactly when every declared
rule's validator passes. -/
theorem orderedRun_isValid_iff (v : Value) (st : FormState) (rules : ValidationParams) :
    (runValidationRules v st (getOrderedValidationEntries rules)).isValid = true ↔
      ∀ e ∈ rules, e.2.validator v st = true := by
  have hperm :
      (((decorateValidationEntries rules).mergeSort decoratedLE).map (·.entry)).Perm
        rules := by
    have := ((decorateValidationEntries rules).mergeSort_perm decoratedLE).map (·.entry)
    rwa [decorateValidationEntries_map_entry] at this
  rw [runValidationRules_isValid_eq_all, getOrderedValidationEntries, List.all_eq_true]
  constructor
  · intro hh e he
    exact hh e (hperm.mem_iff.mpr he)
  · intro hh e he
    exact hh e (hperm.mem_iff.mp he)

/-- If the resolved rule list fails, the reported error belongs to a failing
declared rule that strictly precedes, under the resolved ordering
(effective order, then declaration index), every other failing declared
rule. -/
theorem orderedRun_fail (v : Value) (st : FormState) (rules : ValidationParams)
    (h : (runValidationRules v st (getOrderedValidationEntries rules)).isValid = false) :
    ∃ i name rule, rules[i]? = some (name, rule) ∧ rule.validator v st = false ∧
      runValidationRules v st (getOrderedValidationEntries rules)
        = ⟨false, some ⟨some name, some (rule.message.getD "")⟩⟩ ∧
      ∀ j name2 rule2, rules[j]? = some (name2, rule2) →
        rule2.validator v st = false → j ≠ i →
        effOrderLt (rule.order.getD (Int.ofNat i)) i
          (rule2.order.getD (Int.ofNat j)) j := by
  rw [getOrderedValidationEntries] at h
  obtain ⟨l1, d, l2, hsplit, hpre, hfail, herr⟩ :=
    runValidationRules_map_entry_fail v st _ h
  have hperm := (decorateValidationEntries rules).mergeSort_perm decoratedLE
  have hdmem : d ∈ decorateValidationEntries rules := by
    refine hperm.mem_iff.mp ?_
    rw [hsplit]
    exact List.mem_append_right _ (List.mem_cons_self _ _)
  obtain ⟨hget, hord⟩ := mem_decorateValidationEntries rules d hdmem
  refine ⟨d.index, d.entry.1, d.entry.2, by simpa using hget, hfail,
    by rw [getOrderedValidationEntries]; exact herr, ?_⟩
  intro j name2 rule2 hj hfail2 hne
  obtain ⟨d2, hd2def, hd2mem⟩ :
      ∃ d2 : DecoratedValidationEntry,
        d2 = ⟨(name2, rule2), rule2.order.getD (Int.ofNat j), j⟩
          ∧ d2 ∈ decorateValidationEntries rules :=
    ⟨_, rfl, decorateValidationEntries_mem rules j (name2, rule2) hj⟩
  have hd2ne : d2 ≠ d := by
    intro hEq
    apply hne
    rw [← congrArg DecoratedValidationEntry.index hEq, hd2def]
  have hd2sorted : d2 ∈ (decorateValidationEntries rules).mergeSort decoratedLE :=
    hperm.mem_iff.mpr hd2mem
  rw [hsplit] at hd2sorted
  have hd2inl2 : d2 ∈ l2 := by
    rcases List.mem_append.mp hd2sorted with hmem | hmem
    · exact absurd hfail2 (by simpa [hd2def] using hpre d2 hmem)
    · rcases List.mem_cons.mp hmem with hEq | hmem2
      · exact absurd hEq hd2ne
      · exact hmem2
  have hsorted :=
    List.sorted_mergeSort decoratedLE_trans decoratedLE_total
      (decorateValidationEntries rules)
  rw [hsplit] at hsorted
  have hle : decoratedLE d d2 = true :=
    ((List.pairwise_cons.mp (List.pairwise_append.mp hsorted).2.1).1) d2 hd2inl2
  have hidxne : d.index ≠ d2.index := by
    intro hEq
    exact hd2ne (decorateValidationEntries_index_inj rules d2 d hd2mem hdmem hEq.symm)
  rw [effOrderLt, ← hord]
  simp only [decoratedLE, Bool.or_eq_true, Bool.and_eq_true, decide_eq_true_eq,
    beq_iff_eq] at hle
  have h2o : d2.order = rule2.order.getD (Int.ofNat j) := by rw [hd2def]
  have h2i : d2.index = j := by rw [hd2def]
  rw [hd2def] at hidxne
  rw [h2o, h2i] at hle
  simp only [hd2def] at hidxne
  omega

/-! ### Lemmas about the validation engine -/

/-- The engine preserves the key sequence. -/
theorem applyValidationAux_keys (ffp : FormFieldParams) (snap : FormState)
    (uet : Option Bool) (l ns : List (String × FormFieldState)) (b : Bool)
    (h : applyValidationAux ffp snap uet l = some (ns, b)) :
    ns.map Prod.fst = l.map Prod.fst := by
  induction l generalizing ns b with
  | nil =>
    simp only [applyValidationAux, Option.some.injEq, Prod.mk.injEq] at h
    rw [← h.1]
  | cons e rest ih =>
    obtain ⟨key, prev⟩ := e
    cases hout : getFieldValidationOutcome key ffp snap with
    | none => simp [applyValidationAux, hout] at h
    | some outcome =>
      cases haux : applyValidationAux ffp snap uet rest with
      | none => simp [applyValidationAux, hout, haux] at h
      | some p =>
        obtain ⟨tail, allValidRest⟩ := p
        simp only [applyValidationAux, hout, haux, Option.some.injEq, Prod.mk.injEq] at h
        rw [← h.1]
        simp [ih tail allValidRest haux]

/-- Pointwise characterization of the engine: the field found under a key in
the output is the input field with `isValid` overwritten by the fresh
outcome and `error` overwritten exactly under the
`updateErrorType ?? isInteracted` guard. -/
theorem applyValidationAux_lookup (ffp : FormFieldParams) (snap : FormState)
    (uet : Option Bool) (l ns : List (String × FormFieldState)) (b : Bool)
    (h : applyValidationAux ffp snap uet l = some (ns, b))
    (k : String) (fs : FormFieldState) (hl : l.lookup k = some fs) :
    ∃ outcome, getFieldValidationOutcome k ffp snap = some outcome ∧
      ns.lookup k = some { fs with
                           isValid := outcome.isValid,
                           error := if uet.getD fs.isInteracted then outcome.error
                                    else fs.error } := by
  induction l generalizing ns b with
  | nil => simp [List.lookup] at hl
  | cons e rest ih =>
    obtain ⟨key, prev⟩ := e
    cases hout : getFieldValidationOutcome key ffp snap with
    | none => simp [applyValidationAux, hout] at h
    | some outcome =>
      cases haux : applyValidationAux ffp snap uet rest with
      | none => simp [applyValidationAux, hout, haux] at h
      | some p =>
        obtain ⟨tail, allValidRest⟩ := p
        simp only [applyValidationAux, hout, haux, Option.some.injEq, Prod.mk.injEq] at h
        rw [List.lookup] at hl
        rw [← h.1, List.lookup]
        cases hk : (k == key) with
        | true =>
          simp only [hk] at hl
          have hkey : k = key := by simpa using hk
          obtain rfl := Option.some.inj hl
          subst hkey
          exact ⟨outcome, hout, by simp [hk]⟩
        | false =>
          simp only [hk] at hl
          simpa [hk] using ih tail allValidRest haux hl

/-- The engine's `allValid` flag is the conjunction of the output fields'
fresh `isValid` values. -/
theorem applyValidationAux_allValid (ffp : FormFieldParams) (snap : FormState)
    (uet : Option Bool) (l ns : List (String × FormFieldState)) (b : Bool)
    (h : applyValidationAux ffp snap uet l = some (ns, b)) :
    b = ns.all fun p => p.2.isValid := by
  induction l generalizing ns b with
  | nil =>
    simp only [applyValidationAux, Option.some.injEq, Prod.mk.injEq] at h
    rw [← h.1, ← h.2]
    rfl
  | cons e rest ih =>
    obtain ⟨key, prev⟩ := e
    cases hout : getFieldValidationOutcome key ffp snap with
    | none => simp [applyValidationAux, hout] at h
    | some outcome =>
      cases haux : applyValidationAux ffp snap uet rest with
      | none => simp [applyValidationAux, hout, haux] at h
      | some p =>
        obtain ⟨tail, allValidRest⟩ := p
        simp only [applyValidationAux, hout, haux, Option.some.injEq, Prod.mk.injEq] at h
        rw [← h.1, ← h.2]
        simp [ih tail allValidRest haux]

/-- The engine succeeds whenever every key of the walked list resolves. -/
theorem applyValidationAux_isSome (ffp : FormFieldParams) (snap : FormState)
    (uet : Option Bool) (l : List (String × FormFieldState))
    (hcover : ∀ p ∈ l, (getFieldValidationOutcome p.1 ffp snap).isSome = true) :
    (applyValidationAux ffp snap uet l).isSome = true := by
  induction l with
  | nil => simp [applyValidationAux]
  | cons e rest ih =>
    obtain ⟨key, prev⟩ := e
    cases hout : getFieldValidationOutcome key ffp snap with
    | none =>
      have := hcover (key, prev) (List.mem_cons_self _ _)
      rw [hout] at this
      simp at this
    | some outcome =>
      have hrest : (applyValidationAux ffp snap uet rest).isSome = true :=
        ih fun p hp => hcover p (List.mem_cons_of_mem _ hp)
      cases haux : applyValidationAux ffp snap uet rest with
      | none => rw [haux] at hrest; simp at hrest
      | some p =>
        obtain ⟨tail, allValidRest⟩ := p
        simp [applyValidationAux, hout, haux]

/-- Because cloning is the identity, the engine is its entry loop run over
the current state itself: validators observe exactly the pre-validation
state. -/
theorem applyValidation_eq_aux (st : FormState) (ffp : FormFieldParams)
    (uet : Option Bool) :
    applyValidation st ffp uet = applyValidationAux ffp st uet st := by
  rw [applyValidation, cloneFormState_eq]

/-! ### Association-list and outcome helpers -/

/-- A lookup succeeds exactly when the key occurs. -/
theorem lookup_isSome_iff_mem_keys {β : Type} (l : List (String × β)) (k : String) :
    (l.lookup k).isSome = true ↔ k ∈ l.map Prod.fst := by
  induction l with
  | nil => simp [List.lookup]
  | cons e rest ih =>
    obtain ⟨k1, v⟩ := e
    by_cases hk : k = k1
    · subst hk
      simp [List.lookup]
    · rw [List.lookup]
      have : (k == k1) = false := by simpa using hk
      simp [this, ih, hk]

/-- Lookup through a second-component map. -/
theorem lookup_map_snd {β γ : Type} (l : List (String × β)) (f : β → γ) (k : String) :
    (l.map fun p => (p.1, f p.2)).lookup k = (l.lookup k).map f := by
  induction l with
  | nil => simp [List.lookup]
  | cons e rest ih =>
    obtain ⟨k1, v⟩ := e
    rw [List.map_cons, List.lookup, List.lookup]
    cases hk : (k == k1) with
    | true => simp
    | false => simpa using ih

/-- Unfolding of the outcome resolver once both lookups succeed. -/
theorem getFieldValidationOutcome_eq (key : String) (ffp : FormFieldParams)
    (st : FormState) (fp : FieldParams) (fs : FormFieldState)
    (hp : ffp.lookup key = some fp) (hs : st.lookup key = some fs) :
    getFieldValidationOutcome key ffp st =
      if fs.isRequired && !checkIfRequiredValueFilled fs.value then
        some ⟨false, some ⟨some "required", fp.required.map RequiredParams.message⟩⟩
      else
        match fp.validation with
        | some rules =>
          some (runValidationRules fs.value st (getOrderedValidationEntries rules))
        | none => some ⟨true, none⟩ := by
  simp only [getFieldValidationOutcome, hp, hs]

/-- The resolver succeeds whenever both lookups succeed. -/
theorem getFieldValidationOutcome_isSome (key : String) (ffp : FormFieldParams)
    (st : FormState) (hp : (ffp.lookup key).isSome = true)
    (hs : (st.lookup key).isSome = true) :
    (getFieldValidationOutcome key ffp st).isSome = true := by
  obtain ⟨fp, hfp⟩ := Option.isSome_iff_exists.mp hp
  obtain ⟨fs, hfs⟩ := Option.isSome_iff_exists.mp hs
  rw [getFieldValidationOutcome_eq key ffp st fp fs hfp hfs]
  cases hreq : (fs.isRequired && !checkIfRequiredValueFilled fs.value) with
  | true => simp
  | false => cases hv : fp.validation <;> simp

/-- The required branch of the resolver: a state-flagged-required field with
an unfilled value resolves to the constant invalid `required` outcome,
whatever its validation rules. -/
theorem getFieldValidationOutcome_required (key : String) (ffp : FormFieldParams)
    (st : FormState) (fp : FieldParams) (fs : FormFieldState) (req : RequiredParams)
    (hp : ffp.lookup key = some fp) (hs : st.lookup key = some fs)
    (hreq : fp.required = some req) (hflag : fs.isRequired = true)
    (hunf : checkIfRequiredValueFilled fs.value = false) :
    getFieldValidationOutcome key ffp st
      = some ⟨false, some ⟨some "required", some req.message⟩⟩ := by
  rw [getFieldValidationOutcome_eq key ffp st fp fs hp hs]
  simp [hflag, hunf, hreq]

/-! ### Lemmas about the initial-state factory's validation pass -/

/-- The in-place `isValid` write preserves the key sequence. -/
theorem setFieldIsValid_keys (key : String) (bv : Bool) (st : FormState) :
    (setFieldIsValid key bv st).map Prod.fst = st.map Prod.fst := by
  rw [setFieldIsValid, List.map_map]
  apply List.map_congr_left
  intro p _
  by_cases hp : p.1 = key <;> simp [hp]

/-- Lookup after the in-place `isValid` write. -/
theorem setFieldIsValid_lookup (key : String) (bv : Bool) (st : FormState)
    (k : String) :
    (setFieldIsValid key bv st).lookup k
      = (st.lookup k).map fun fs => if k = key then { fs with isValid := bv } else fs := by
  induction st with
  | nil => simp [setFieldIsValid, List.lookup]
  | cons e rest ih =>
    obtain ⟨k1, fs1⟩ := e
    rw [setFieldIsValid, List.map_cons]
    by_cases h1 : k1 = key
    · subst h1
      rw [if_pos rfl, List.lookup, List.lookup]
      cases hk : (k == k1) with
      | true =>
        have : k = k1 := by simpa using hk
        simp [this]
      | false =>
        have : ¬(k = k1) := by simpa using hk
        simpa [setFieldIsValid] using ih
    · rw [if_neg (by simpa using h1), List.lookup, List.lookup]
      cases hk : (k == k1) with
      | true =>
        have hkk : k = k1 := by simpa using hk
        simp [hkk, h1]
      | false => simpa [setFieldIsValid] using ih

/-- The factory's validation pass preserves the key sequence. -/
theorem initialValidationPass_keys (ffp : FormFieldParams) :
    ∀ (keys : List String) (st s : FormState),
      initialValidationPass ffp keys st = some s →
      s.map Prod.fst = st.map Prod.fst := by
  intro keys
  induction keys with
  | nil =>
    intro st s h
    simp only [initialValidationPass, Option.some.injEq] at h
    rw [h]
  | cons key rest ih =>
    intro st s h
    rw [initialValidationPass] at h
    cases hout : getFieldValidationOutcome key ffp st with
    | none => rw [hout] at h; exact absurd h (by simp)
    | some outcome =>
      rw [hout] at h
      exact (ih _ _ h).trans (setFieldIsValid_keys _ _ _)

/-- Keys outside the walked key list are untouched by the pass. -/
theorem initialValidationPass_untouched (ffp : FormFieldParams) :
    ∀ (keys : List String) (st s : FormState),
      initialValidationPass ffp keys st = some s →
      ∀ k, k ∉ keys → s.lookup k = st.lookup k := by
  intro keys
  induction keys with
  | nil =>
    intro st s h k _
    simp only [initialValidationPass, Option.some.injEq] at h
    rw [h]
  | cons key rest ih =>
    intro st s h k hk
    rw [initialValidationPass] at h
    cases hout : getFieldValidationOutcome key ffp st with
    | none => rw [hout] at h; exact absurd h (by simp)
    | some outcome =>
      rw [hout] at h
      have hkrest : k ∉ rest := fun hmem => hk (List.mem_cons_of_mem _ hmem)
      have hkne : k ≠ key := fun hEq => hk (hEq ▸ List.mem_cons_self _ _)
      rw [ih _ _ h k hkrest, setFieldIsValid_lookup]
      cases st.lookup k <;> simp [hkne]

/-- The pass changes at most the `isValid` component of each field. -/
theorem initialValidationPass_frame (ffp : FormFieldParams) :
    ∀ (keys : List String) (st s : FormState),
      initialValidationPass ffp keys st = some s →
      ∀ k fs, st.lookup k = some fs →
        ∃ bv, s.lookup k = some { fs with isValid := bv } := by
  intro keys
  induction keys with
  | nil =>
    intro st s h k fs hfs
    simp only [initialValidationPass, Option.some.injEq] at h
    exact ⟨fs.isValid, by rw [← h, hfs]⟩
  | cons key rest ih =>
    intro st s h k fs hfs
    rw [initialValidationPass] at h
    cases hout : getFieldValidationOutcome key ffp st with
    | none => rw [hout] at h; exact absurd h (by simp)
    | some outcome =>
      rw [hout] at h
      by_cases hk : k = key
      · have hlk : (setFieldIsValid key outcome.isValid st).lookup k
            = some { fs with isValid := outcome.isValid } := by
          rw [setFieldIsValid_lookup, hfs]
          simp [hk]
        exact ih _ _ h k { fs with isValid := outcome.isValid } hlk
      · have hlk : (setFieldIsValid key outcome.isValid st).lookup k = some fs := by
          rw [setFieldIsValid_lookup, hfs]
          simp [hk]
        exact ih _ _ h k fs hlk

/-- The pass succeeds whenever every walked key occurs in the params and in
the snapshot. -/
theorem initialValidationPass_isSome (ffp : FormFieldParams) :
    ∀ (keys : List String) (st : FormState),
      (∀ k ∈ keys, (ffp.lookup k).isSome = true ∧ (st.lookup k).isSome = true) →
      (initialValidationPass ffp keys st).isSome = true := by
  intro keys
  induction keys with
  | nil => intro st _; simp [initialValidationPass]
  | cons key rest ih =>
    intro st hcover
    obtain ⟨hp, hs⟩ := hcover key (List.mem_cons_self _ _)
    have hout : (getFieldValidationOutcome key ffp st).isSome = true :=
      getFieldValidationOutcome_isSome key ffp st hp hs
    obtain ⟨outcome, houtcome⟩ := Option.isSome_iff_exists.mp hout
    rw [initialValidationPass, houtcome]
    apply ih
    intro k hk
    obtain ⟨hpk, hsk⟩ := hcover k (List.mem_cons_of_mem _ hk)
    refine ⟨hpk, ?_⟩
    rw [setFieldIsValid_lookup]
    cases hlk : st.lookup k with
    | none => rw [hlk] at hsk; simp at hsk
    | some fsk => simp

/-- A key whose outcome is determined by its own (never rewritten) field
record gets exactly that outcome's validity, once, and keeps it to the end
of the pass. -/
theorem initialValidationPass_stable (ffp : FormFieldParams) (k : String)
    (fs : FormFieldState) (bv : Bool)
    (hstable : ∀ st2 : FormState, st2.lookup k = some fs →
      ∃ o, getFieldValidationOutcome k ffp st2 = some o ∧ o.isValid = bv) :
    ∀ (keys : List String), keys.Nodup → k ∈ keys →
    ∀ (st s : FormState), st.lookup k = some fs →
      initialValidationPass ffp keys st = some s →
      s.lookup k = some { fs with isValid := bv } := by
  intro keys
  induction keys with
  | nil => intro _ hk; simp at hk
  | cons key rest ih =>
    intro hnd hk st s hfs h
    rw [initialValidationPass] at h
    cases hout : getFieldValidationOutcome key ffp st with
    | none => rw [hout] at h; exact absurd h (by simp)
    | some outcome =>
      rw [hout] at h
      by_cases hkey : k = key
      · subst hkey
        obtain ⟨o, ho, hov⟩ := hstable st hfs
        rw [hout] at ho
        obtain rfl := Option.some.inj ho
        have hnotrest : k ∉ rest := (List.nodup_cons.mp hnd).1
        rw [initialValidationPass_untouched ffp rest _ _ h k hnotrest,
          setFieldIsValid_lookup, hfs]
        simp [hov]
      · have hkrest : k ∈ rest := by
          rcases List.mem_cons.mp hk with hEq | hmem
          · exact absurd hEq hkey
          · exact hmem
        have hfs1 : (setFieldIsValid key outcome.isValid st).lookup k = some fs := by
          rw [setFieldIsValid_lookup, hfs]
          simp [hkey]
        exact ih (List.nodup_cons.mp hnd).2 hkrest _ _ hfs1 h

/-! ### Lemmas about the hook layer -/

/-- The engine preserves the key sequence (top-level form). -/
theorem applyValidation_keys (st : FormState) (ffp : FormFieldParams)
    (uet : Option Bool) (ns : FormState) (b : Bool)
    (h : applyValidation st ffp uet = some (ns, b)) :
    ns.map Prod.fst = st.map Prod.fst := by
  rw [applyValidation_eq_aux] at h
  exact applyValidationAux_keys _ _ _ _ _ _ h

/-- Equal key sequences give lookups of equal success. -/
theorem lookup_isSome_congr {β : Type} (l1 l2 : List (String × β))
    (hk : l1.map Prod.fst = l2.map Prod.fst) (k : String) :
    (l1.lookup k).isSome = (l2.lookup k).isSome := by
  cases h2 : (l2.lookup k).isSome with
  | true =>
    refine (lookup_isSome_iff_mem_keys l1 k).mpr ?_
    rw [hk]
    exact (lookup_isSome_iff_mem_keys l2 k).mp h2
  | false =>
    cases h1 : (l1.lookup k).isSome with
    | false => rfl
    | true =>
      exfalso
      have hmem := (lookup_isSome_iff_mem_keys l1 k).mp h1
      rw [hk] at hmem
      have h2t := (lookup_isSome_iff_mem_keys l2 k).mpr hmem
      rw [h2] at h2t
      exact absurd h2t (by simp)

/-- Key preservation by the staged-state error override. -/
theorem withPreviousErrors_keys :
    ∀ (nextState prevState imm : FormState),
      withPreviousErrors nextState prevState = some imm →
      imm.map Prod.fst = nextState.map Prod.fst := by
  intro nextState
  induction nextState with
  | nil =>
    intro prevState imm h
    simp only [withPreviousErrors, Option.some.injEq] at h
    rw [← h]
  | cons e rest ih =>
    intro prevState imm h
    obtain ⟨key, fs⟩ := e
    rw [withPreviousErrors] at h
    cases hprev : prevState.lookup key with
    | none => rw [hprev] at h; exact absurd h (by simp)
    | some prev =>
      rw [hprev] at h
      cases htail : withPreviousErrors rest prevState with
      | none => rw [htail] at h; exact absurd h (by simp)
      | some tail =>
        rw [htail] at h
        obtain rfl := (Option.some.inj h).symm
        simp [ih prevState tail htail]

/-- Pointwise characterization of the staged-state error override. -/
theorem withPreviousErrors_lookup :
    ∀ (nextState prevState imm : FormState),
      withPreviousErrors nextState prevState = some imm →
      ∀ k, imm.lookup k = (nextState.lookup k).bind fun fs =>
        (prevState.lookup k).map fun prev => { fs with error := prev.error } := by
  intro nextState
  induction nextState with
  | nil =>
    intro prevState imm h k
    simp only [withPreviousErrors, Option.some.injEq] at h
    rw [← h]
    simp [List.lookup]
  | cons e rest ih =>
    intro prevState imm h k
    obtain ⟨key, fs⟩ := e
    rw [withPreviousErrors] at h
    cases hprev : prevState.lookup key with
    | none => rw [hprev] at h; exact absurd h (by simp)
    | some prev =>
      rw [hprev] at h
      cases htail : withPreviousErrors rest prevState with
      | none => rw [htail] at h; exact absurd h (by simp)
      | some tail =>
        rw [htail] at h
        obtain rfl := (Option.some.inj h).symm
        rw [List.lookup, List.lookup]
        cases hk : (k == key) with
        | true =>
          have hkk : k = key := by simpa using hk
          subst hkk
          rw [hprev]
          rfl
        | false => simpa using ih prevState tail htail k

/-- The immediately exposed state keeps exactly the previous errors. -/
theorem withPreviousErrors_error (nextState prevState imm : FormState)
    (h : withPreviousErrors nextState prevState = some imm)
    (hkeys : nextState.map Prod.fst = prevState.map Prod.fst) :
    ∀ k, (imm.lookup k).map FormFieldState.error
      = (prevState.lookup k).map FormFieldState.error := by
  intro k
  rw [withPreviousErrors_lookup nextState prevState imm h k]
  have hsome := lookup_isSome_congr nextState prevState hkeys k
  cases hn : nextState.lookup k with
  | none =>
    rw [hn] at hsome
    cases hp : prevState.lookup k with
    | none => rfl
    | some prev => rw [hp] at hsome; simp at hsome
  | some fs =>
    rw [hn] at hsome
    cases hp : prevState.lookup k with
    | none => rw [hp] at hsome; simp at hsome
    | some prev => simp [hp]

/-- Inversion of the field update: the updated state is the map rewriting
the addressed entry. -/
theorem updateFieldValue_some (key : String) (v : Value) (si : Bool)
    (st st2 : FormState) (h : updateFieldValue key v si st = some st2) :
    st2 = st.map fun p =>
      if p.1 = key
      then (p.1, { p.2 with value := v, isInteracted := p.2.isInteracted || si })
      else p := by
  rw [updateFieldValue] at h
  cases hl : st.lookup key with
  | none => rw [hl] at h; exact absurd h (by simp)
  | some _ => rw [hl] at h; exact (Option.some.inj h).symm

/-- The field update preserves the key sequence. -/
theorem updateFieldValue_keys (key : String) (v : Value) (si : Bool)
    (st st2 : FormState) (h : updateFieldValue key v si st = some st2) :
    st2.map Prod.fst = st.map Prod.fst := by
  rw [updateFieldValue_some key v si st st2 h, List.map_map]
  apply List.map_congr_left
  intro p _
  by_cases hp : p.1 = key <;> simp [hp]

/-- Pointwise characterization of the field update. -/
theorem updateFieldValue_lookup (key : String) (v : Value) (si : Bool)
    (st st2 : FormState) (h : updateFieldValue key v si st = some st2) (k : String) :
    st2.lookup k = (st.lookup k).map fun fs =>
      if k = key then { fs with value := v, isInteracted := fs.isInteracted || si }
      else fs := by
  rw [updateFieldValue_some key v si st st2 h]
  clear h
  clear st2
  induction st with
  | nil => simp [List.lookup]
  | cons e rest ih =>
    obtain ⟨k1, fs1⟩ := e
    rw [List.map_cons]
    by_cases h1 : k1 = key
    · rw [if_pos (by simpa using h1), List.lookup, List.lookup]
      cases hk : (k == k1) with
      | true =>
        have hkk : k = k1 := by simpa using hk
        simp [hkk, h1]
      | false => simpa using ih
    · rw [if_neg (by simpa using h1), List.lookup, List.lookup]
      cases hk : (k == k1) with
      | true =>
        have hkk : k = k1 := by simpa using hk
        have : ¬(k = key) := by rw [hkk]; exact h1
        simp [this]
      | false => simpa using ih

/-- The field update succeeds only on a declared key. -/
theorem updateFieldValue_isSome (key : String) (v : Value) (si : Bool)
    (st st2 : FormState) (h : updateFieldValue key v si st = some st2) :
    (st.lookup key).isSome = true := by
  rw [updateFieldValue] at h
  cases hl : st.lookup key with
  | none => rw [hl] at h; exact absurd h (by simp)
  | some _ => rfl

/-- Inversion of the debounced branch of `scheduleValidationRun`: with a
positive delay and `updateErrorType` not explicitly false, the run stages
the full validation result, exposes it with the previous errors, and
schedules the timeout under the fresh run id. -/
theorem scheduleValidationRun_delayed (ffp : FormFieldParams) (δ : ℚ)
    (uet : Option Bool) (h h2 : HookState)
    (hδ : 0 < δ) (huet : uet ≠ some false)
    (hrun : scheduleValidationRun ffp δ uet h = some h2) :
    ∃ nextState allValid imm,
      applyValidation h.state ffp uet = some (nextState, allValid) ∧
      withPreviousErrors nextState h.state = some imm ∧
      h2 = { state := imm, runId := h.runId + 1, timer := some (h.runId + 1),
             pending := some nextState } := by
  have hdelay : (decide (δ > 0) && !(uet == some false)) = true := by
    rw [decide_eq_true hδ]
    cases uet with
    | none => rfl
    | some b =>
      cases b with
      | true => rfl
      | false => exact absurd rfl huet
  cases happ : applyValidation h.state ffp uet with
  | none => simp [scheduleValidationRun, clearPendingValidation, happ] at hrun
  | some p =>
    obtain ⟨nextState, allValid⟩ := p
    cases himm : withPreviousErrors nextState h.state with
    | none =>
      simp [scheduleValidationRun, clearPendingValidation, happ, hdelay, himm] at hrun
    | some imm =>
      simp only [scheduleValidationRun, clearPendingValidation, happ, hdelay, himm,
        Bool.not_true, Bool.false_eq_true, if_false, Option.some.injEq] at hrun
      exact ⟨nextState, allValid, imm, rfl, himm, hrun.symm⟩

/-- Inversion of `set`: the state update succeeded and the validation flow
ran on the updated state. -/
theorem set_inversion (ffp : FormFieldParams) (δ : ℚ) (key : String) (v : Value)
    (si : Bool) (h h2 : HookState) (hs : set ffp δ key v si h = some h2) :
    ∃ st, updateFieldValue key v si h.state = some st ∧
      scheduleValidationRun ffp δ (if si then some true else none)
        { h with state := st } = some h2 := by
  rw [set] at hs
  cases hu : updateFieldValue key v si h.state with
  | none => rw [hu] at hs; exact absurd hs (by simp)
  | some st => rw [hu] at hs; exact ⟨st, rfl, hs⟩

/-- A current, staged timeout commits the staged state and consumes itself. -/
theorem fireTimer_commit (h : HookState) (pending : FormState)
    (ht : h.timer = some h.runId) (hp : h.pending = some pending) :
    fireTimer h = { h with timer := none, pending := none, state := pending } := by
  simp [fireTimer, ht, hp]

/-- With no scheduled timeout nothing can fire. -/
theorem fireTimer_no_timer (h : HookState) (ht : h.timer = none) : fireTimer h = h := by
  simp [fireTimer, ht]

/-- A `setMany` batch whose data addresses an unknown key crashes. -/
theorem updateManyFieldValues_unknown (si : Bool) :
    ∀ (data : List (String × Value)) (st : FormState) (key : String),
      st.lookup key = none → key ∈ data.map Prod.fst →
      updateManyFieldValues si data st = none := by
  intro data
  induction data with
  | nil => intro st key _ hk; simp at hk
  | cons e rest ih =>
    intro st key hnone hk
    obtain ⟨k1, v1⟩ := e
    rw [updateManyFieldValues]
    rcases List.mem_cons.mp hk with hEq | hmem
    · have : updateFieldValue k1 v1 si st = none := by
        rw [updateFieldValue]
        simp only [List.map_cons] at hEq
        rw [← hEq, hnone]
      rw [this]
    · cases hu : updateFieldValue k1 v1 si st with
      | none => rfl
      | some st2 =>
        have hnone2 : st2.lookup key = none := by
          rw [updateFieldValue_lookup k1 v1 si st st2 hu key, hnone]
          rfl
        exact ih st2 key hnone2 hmem

/-- Composite inversion of `set` under a positive delay: the value is
written, validation runs on the written state, the full result is staged
under a fresh run id whose timeout is scheduled, and the live state keeps
every previous error. -/
theorem set_delayed_spec (ffp : FormFieldParams) (δ : ℚ) (key : String)
    (v : Value) (h h2 : HookState) (hδ : 0 < δ)
    (hs : set ffp δ key v true h = some h2) :
    ∃ st nextState allValid,
      updateFieldValue key v true h.state = some st ∧
      applyValidation st ffp (some true) = some (nextState, allValid) ∧
      h2.runId = h.runId + 1 ∧ h2.timer = some h2.runId ∧
      h2.pending = some nextState ∧
      h2.state.map Prod.fst = h.state.map Prod.fst ∧
      ∀ k2, (h2.state.lookup k2).map FormFieldState.error
        = (h.state.lookup k2).map FormFieldState.error := by
  obtain ⟨st, hupd, hsched⟩ := set_inversion ffp δ key v true h h2 hs
  rw [if_pos rfl] at hsched
  obtain ⟨nextState, allValid, imm, happ, himm, hh2⟩ :=
    scheduleValidationRun_delayed ffp δ (some true) { h with state := st } h2 hδ
      (by simp) hsched
  have hkeys1 : nextState.map Prod.fst = st.map Prod.fst :=
    applyValidation_keys st ffp (some true) nextState allValid happ
  have hkeys2 : st.map Prod.fst = h.state.map Prod.fst :=
    updateFieldValue_keys key v true h.state st hupd
  have himmkeys : imm.map Prod.fst = nextState.map Prod.fst :=
    withPreviousErrors_keys nextState st imm himm
  refine ⟨st, nextState, allValid, hupd, happ, by rw [hh2], by rw [hh2],
    by rw [hh2], ?_, ?_⟩
  · rw [hh2]
    show imm.map Prod.fst = h.state.map Prod.fst
    rw [himmkeys, hkeys1, hkeys2]
  · intro k2
    rw [hh2]
    show (imm.lookup k2).map FormFieldState.error
      = (h.state.lookup k2).map FormFieldState.error
    have herr := withPreviousErrors_error nextState st imm himm
      (hkeys1.trans hkeys2 ▸ hkeys1) k2
    rw [herr]
    rw [updateFieldValue_lookup key v true h.state st hupd k2]
    cases hl : h.state.lookup k2 with
    | none => rfl
    | some fs =>
      by_cases hk : k2 = key <;> simp [hk]

/-! ### Claim theorems -/

/-- C1: for every form state, field-params mapping and `updateErrorType`
option, `applyValidation` sets every field's `isValid` unconditionally to
the freshly resolved outcome; it replaces the field's `error` with the
fresh error (or none) iff `updateErrorType` is explicitly true, or is unset
and the field's `isInteracted` is true, and otherwise leaves the previous
error untouched; and the returned `allValid` flag is the conjunction of all
fields' fresh `isValid` values. -/
theorem applyValidation_updates_isValid_error_allValid
    (currentState : FormState) (formFieldParams : FormFieldParams)
    (updateErrorType : Option Bool) (nextState : FormState) (allValid : Bool)
    (h : applyValidation currentState formFieldParams updateErrorType
          = some (nextState, allValid)) :
    (∀ key fs, currentState.lookup key = some fs →
      ∃ outcome,
        getFieldValidationOutcome key formFieldParams currentState = some outcome ∧
        nextState.lookup key = some { fs with
                                      isValid := outcome.isValid,
                                      error := if updateErrorType.getD fs.isInteracted
                                               then outcome.error else fs.error })
    ∧ allValid = nextState.all fun p => p.2.isValid := by
  rw [applyValidation_eq_aux] at h
  exact ⟨fun key fs hl => applyValidationAux_lookup _ _ _ _ _ _ h key fs hl,
    applyValidationAux_allValid _ _ _ _ _ _ h⟩

/-- Closed instance of C1 on the one-field fixture. -/
theorem applyValidation_updates_isValid_error_allValid_witness :
    applyValidation plainFormState plainFormParams none
        = some (plainFormValidated, true)
    ∧ ((∀ key fs, plainFormState.lookup key = some fs →
        ∃ outcome,
          getFieldValidationOutcome key plainFormParams plainFormState = some outcome ∧
          plainFormValidated.lookup key = some { fs with
                                                 isValid := outcome.isValid,
                                                 error := if (none : Option Bool).getD
                                                              fs.isInteracted
                                                          then outcome.error
                                                          else fs.error })
      ∧ true = plainFormValidated.all fun p => p.2.isValid) := by
  have hrun : applyValidation plainFormState plainFormParams none
      = some (plainFormValidated, true) := by
    rw [applyValidation_eq_aux]
    simp [applyValidationAux, getFieldValidationOutcome, plainFormState,
      plainFormParams, plainFieldParams, plainFieldState, plainFormValidated,
      checkIfRequiredValueFilled, List.lookup]
  exact ⟨hrun,
    applyValidation_updates_isValid_error_allValid plainFormState plainFormParams
      none plainFormValidated true hrun⟩

/-- C2: a field whose params declare `required` (with its state flagged
required, as the factory derives it) and whose current value is not filled
resolves to invalid with error type `"required"` and the declared message —
for every `validation` entry alike, so the validators are never consulted
and such a field is never valid. -/
theorem requiredUnfilled_never_valid (key : String)
    (formFieldParams : FormFieldParams) (state : FormState)
    (fieldParams : FieldParams) (fieldState : FormFieldState)
    (req : RequiredParams)
    (hparams : formFieldParams.lookup key = some fieldParams)
    (hstate : state.lookup key = some fieldState)
    (hrequired : fieldParams.required = some req)
    (hflag : fieldState.isRequired = true)
    (hunfilled : checkIfRequiredValueFilled fieldState.value = false) :
    getFieldValidationOutcome key formFieldParams state
      = some ⟨false, some ⟨some "required", some req.message⟩⟩ :=
  getFieldValidationOutcome_required key formFieldParams state fieldParams
    fieldState req hparams hstate hrequired hflag hunfilled

/-- Closed instance of C2 on the required-empty fixture. -/
theorem requiredUnfilled_never_valid_witness :
    List.lookup "e" [("e", requiredFieldParams)] = some requiredFieldParams
    ∧ List.lookup "e" [("e", requiredEmptyFieldState)] = some requiredEmptyFieldState
    ∧ requiredFieldParams.required = some ⟨"required!"⟩
    ∧ requiredEmptyFieldState.isRequired = true
    ∧ checkIfRequiredValueFilled requiredEmptyFieldState.value = false
    ∧ getFieldValidationOutcome "e" [("e", requiredFieldParams)]
        [("e", requiredEmptyFieldState)]
      = some ⟨false, some ⟨some "required", some "required!"⟩⟩ :=
  ⟨rfl, rfl, rfl, rfl, rfl,
    requiredUnfilled_never_valid "e" _ _ _ _ ⟨"required!"⟩ rfl rfl rfl rfl rfl⟩

/-- C4 counterexample: the claim says a boolean is filled iff truthy, so
`false` would not be filled; but `checkIfRequiredValueFilled` returns `true`
on the boolean `false` (the source's `case "boolean"` returns `true`
unconditionally). -/
theorem checkIfRequiredValueFilled_bool_false :
    checkIfRequiredValueFilled (Value.bool false) = true
      ∧ specIsFilled (Value.bool false) = false :=
  ⟨rfl, rfl⟩

/-- C4 amended: `checkIfRequiredValueFilled` is total and matches the §4.1
table at every row except the boolean row, where every boolean (including
`false`) counts as filled. -/
theorem checkIfRequiredValueFilled_matches_amended_table (v : Value) :
    checkIfRequiredValueFilled v = specIsFilledAmended v := by
  cases v with
  | num n => cases n <;> rfl
  | _ =>
    first
    | rfl
    | (simp only [checkIfRequiredValueFilled, specIsFilledAmended, decide_eq_decide]
       omega)

/-- C10: `applyValidation` changes at most `isValid` and `error` of each
field: keys and their order, `value`, `label`, `helperText`, `isRequired`
and `isInteracted` are all preserved, and each field's outcome is resolved
against the pre-validation state (the snapshot equals the input state), so
no validator observes another field's freshly computed result. -/
theorem applyValidation_frame (currentState : FormState)
    (formFieldParams : FormFieldParams) (updateErrorType : Option Bool)
    (nextState : FormState) (allValid : Bool)
    (h : applyValidation currentState formFieldParams updateErrorType
          = some (nextState, allValid)) :
    nextState.map Prod.fst = currentState.map Prod.fst
    ∧ ∀ key fs, currentState.lookup key = some fs →
      ∃ fs2 outcome, nextState.lookup key = some fs2 ∧
        getFieldValidationOutcome key formFieldParams currentState = some outcome ∧
        fs2.value = fs.value ∧ fs2.label = fs.label ∧ fs2.helperText = fs.helperText ∧
        fs2.isRequired = fs.isRequired ∧ fs2.isInteracted = fs.isInteracted ∧
        fs2.isValid = outcome.isValid ∧
        (fs2.error = outcome.error ∨ fs2.error = fs.error) := by
  rw [applyValidation_eq_aux] at h
  refine ⟨applyValidationAux_keys _ _ _ _ _ _ h, fun key fs hl => ?_⟩
  obtain ⟨outcome, hout, hns⟩ := applyValidationAux_lookup _ _ _ _ _ _ h key fs hl
  refine ⟨_, outcome, hns, hout, rfl, rfl, rfl, rfl, rfl, rfl, ?_⟩
  cases hu : updateErrorType.getD fs.isInteracted with
  | true => left; simp [hu]
  | false => right; simp [hu]

/-- Closed instance of C10 on the one-field fixture. -/
theorem applyValidation_frame_witness :
    applyValidation plainFormState plainFormParams none
        = some (plainFormValidated, true)
    ∧ (plainFormValidated.map Prod.fst = plainFormState.map Prod.fst
      ∧ ∀ key fs, plainFormState.lookup key = some fs →
        ∃ fs2 outcome, plainFormValidated.lookup key = some fs2 ∧
          getFieldValidationOutcome key plainFormParams plainFormState = some outcome ∧
          fs2.value = fs.value ∧ fs2.label = fs.label ∧ fs2.helperText = fs.helperText ∧
          fs2.isRequired = fs.isRequired ∧ fs2.isInteracted = fs.isInteracted ∧
          fs2.isValid = outcome.isValid ∧
          (fs2.error = outcome.error ∨ fs2.error = fs.error)) := by
  have hrun : applyValidation plainFormState plainFormParams none
      = some (plainFormValidated, true) := by
    rw [applyValidation_eq_aux]
    simp [applyValidationAux, getFieldValidationOutcome, plainFormState,
      plainFormParams, plainFieldParams, plainFieldState, plainFormValidated,
      checkIfRequiredValueFilled, List.lookup]
  exact ⟨hrun,
    applyValidation_frame plainFormState plainFormParams none plainFormValidated
      true hrun⟩

/-- With exactly two rules, both failing, declared with explicit orders
2 and 1, the resolved run reports the order-1 rule's failure. -/
theorem orderedRun_two_rules (v : Value) (st : FormState)
    (name1 name2 : String) (rule1 rule2 : ValidationRuleParams)
    (ho1 : rule1.order = some 2) (ho2 : rule2.order = some 1)
    (hf1 : rule1.validator v st = false) (hf2 : rule2.validator v st = false) :
    runValidationRules v st (getOrderedValidationEntries [(name1, rule1), (name2, rule2)])
      = ⟨false, some ⟨some name2, some (rule2.message.getD "")⟩⟩ := by
  have hinv : (runValidationRules v st
      (getOrderedValidationEntries [(name1, rule1), (name2, rule2)])).isValid = false := by
    cases hvalid : (runValidationRules v st
        (getOrderedValidationEntries [(name1, rule1), (name2, rule2)])).isValid with
    | false => rfl
    | true =>
      have := (orderedRun_isValid_iff v st [(name1, rule1), (name2, rule2)]).mp hvalid
        (name1, rule1) (by simp)
      rw [hf1] at this
      exact absurd this (by simp)
  obtain ⟨i, name, rule, hget, hfail, herr, hmin⟩ := orderedRun_fail v st _ hinv
  have hi : i < 2 := by
    by_contra hge
    push_neg at hge
    rw [List.getElem?_eq_none (by simpa using hge)] at hget
    exact absurd hget (by simp)
  interval_cases i
  · exfalso
    have hne : (1 : Nat) ≠ 0 := by omega
    have hmin1 := hmin 1 name2 rule2 (by simp) hf2 hne
    simp only [List.getElem?_cons_zero, Option.some.injEq, Prod.mk.injEq] at hget
    rw [← hget.2, ho1, ho2] at hmin1
    simp only [effOrderLt, Option.getD_some] at hmin1
    rcases hmin1 with hlt | ⟨hEq, hlt2⟩
    · omega
    · omega
  · simp only [List.getElem?_cons_succ, List.getElem?_cons_zero, Option.some.injEq,
      Prod.mk.injEq] at hget
    rw [← hget.1, ← hget.2] at herr
    exact herr

/-- C3: for a field that passes the required check and declares a validation
map, the outcome is first-failing in the resolved order: the outcome is
valid iff every declared rule's validator passes, a valid outcome carries no
error, and an invalid outcome reports the name and message (empty string
when none) of a failing declared rule that strictly precedes — by effective
order `order ?? declaration index`, ties broken by declaration index — every
other failing declared rule.  In particular, with two failing rules of
explicit orders 2 and 1, the order-1 rule's failure is the one reported. -/
theorem orderedValidation_firstFailing (key : String)
    (formFieldParams : FormFieldParams) (state : FormState)
    (fieldParams : FieldParams) (fieldState : FormFieldState)
    (rules : ValidationParams)
    (hparams : formFieldParams.lookup key = some fieldParams)
    (hstate : state.lookup key = some fieldState)
    (hpass : fieldState.isRequired = false
      ∨ checkIfRequiredValueFilled fieldState.value = true)
    (hval : fieldParams.validation = some rules) :
    ∃ res, getFieldValidationOutcome key formFieldParams state = some res ∧
      (res.isValid = true ↔ ∀ e ∈ rules, e.2.validator fieldState.value state = true) ∧
      (res.isValid = true → res.error = none) ∧
      (res.isValid = false →
        ∃ i name rule, rules[i]? = some (name, rule) ∧
          rule.validator fieldState.value state = false ∧
          res.error = some ⟨some name, some (rule.message.getD "")⟩ ∧
          ∀ j name2 rule2, rules[j]? = some (name2, rule2) →
            rule2.validator fieldState.value state = false → j ≠ i →
            effOrderLt (rule.order.getD (Int.ofNat i)) i
              (rule2.order.getD (Int.ofNat j)) j) ∧
      (∀ name1 name2 rule1 rule2,
        rules = [(name1, rule1), (name2, rule2)] →
        rule1.order = some 2 → rule2.order = some 1 →
        rule1.validator fieldState.value state = false →
        rule2.validator fieldState.value state = false →
        res = ⟨false, some ⟨some name2, some (rule2.message.getD "")⟩⟩) := by
  have houtcome : getFieldValidationOutcome key formFieldParams state
      = some (runValidationRules fieldState.value state
          (getOrderedValidationEntries rules)) := by
    simp only [getFieldValidationOutcome, hparams, hstate, hval]
    rcases hpass with h1 | h1 <;> simp [h1]
  refine ⟨_, houtcome, orderedRun_isValid_iff _ _ _, ?_, ?_, ?_⟩
  · intro hvalid
    rw [runValidationRules_of_isValid _ _ _ hvalid]
  · intro hinvalid
    obtain ⟨i, name, rule, hget, hfail, herr, hmin⟩ :=
      orderedRun_fail fieldState.value state rules hinvalid
    exact ⟨i, name, rule, hget, hfail, by rw [herr], hmin⟩
  · intro name1 name2 rule1 rule2 hrules ho1 ho2 hf1 hf2
    subst hrules
    exact orderedRun_two_rules fieldState.value state name1 name2 rule1 rule2
      ho1 ho2 hf1 hf2

/-- Closed instance of C3 on the two-rule ordered fixture, including the
concrete evaluation showing the order-1 rule's failure reported. -/
theorem orderedValidation_firstFailing_witness :
    List.lookup "a" orderedFormParams = some orderedFieldParams
    ∧ List.lookup "a" plainFormState = some plainFieldState
    ∧ plainFieldState.isRequired = false
    ∧ orderedFieldParams.validation
        = some [("ruleA", failingRuleOrderTwo), ("ruleB", failingRuleOrderOne)]
    ∧ getFieldValidationOutcome "a" orderedFormParams plainFormState
        = some ⟨false, some ⟨some "ruleB", some "B failed"⟩⟩
    ∧ (∃ res, getFieldValidationOutcome "a" orderedFormParams plainFormState = some res ∧
      (res.isValid = true ↔
        ∀ e ∈ [("ruleA", failingRuleOrderTwo), ("ruleB", failingRuleOrderOne)],
          e.2.validator plainFieldState.value plainFormState = true) ∧
      (res.isValid = true → res.error = none) ∧
      (res.isValid = false →
        ∃ i name rule,
          [("ruleA", failingRuleOrderTwo), ("ruleB", failingRuleOrderOne)][i]?
            = some (name, rule) ∧
          rule.validator plainFieldState.value plainFormState = false ∧
          res.error = some ⟨some name, some (rule.message.getD "")⟩ ∧
          ∀ j name2 rule2,
            [("ruleA", failingRuleOrderTwo), ("ruleB", failingRuleOrderOne)][j]?
              = some (name2, rule2) →
            rule2.validator plainFieldState.value plainFormState = false → j ≠ i →
            effOrderLt (rule.order.getD (Int.ofNat i)) i
              (rule2.order.getD (Int.ofNat j)) j) ∧
      (∀ name1 name2 rule1 rule2,
        ([("ruleA", failingRuleOrderTwo), ("ruleB", failingRuleOrderOne)] :
            ValidationParams) = [(name1, rule1), (name2, rule2)] →
        rule1.order = some 2 → rule2.order = some 1 →
        rule1.validator plainFieldState.value plainFormState = false →
        rule2.validator plainFieldState.value plainFormState = false →
        res = ⟨false, some ⟨some name2, some (rule2.message.getD "")⟩⟩)) := by
  refine ⟨rfl, rfl, rfl, rfl, ?_, ?_⟩
  · simp [getFieldValidationOutcome, orderedFormParams, orderedFieldParams,
      plainFormState, plainFieldState, checkIfRequiredValueFilled, List.lookup,
      getOrderedValidationEntries, decorateValidationEntries, List.enum,
      List.enumFrom, List.mergeSort, List.merge, decoratedLE,
      failingRuleOrderTwo, failingRuleOrderOne, runValidationRules]
  · exact orderedValidation_firstFailing "a" orderedFormParams plainFormState
      orderedFieldParams plainFieldState
      [("ruleA", failingRuleOrderTwo), ("ruleB", failingRuleOrderOne)]
      rfl rfl (Or.inl rfl) rfl

/-- C9: the Initial-State Factory succeeds on every params mapping with
distinct keys, producing one field per declared key (in declaration order)
with the cloned default value, copied label (defaulted to the empty string)
and helper text, `isInteracted = false`, `error = none` (never
materialized), and `isRequired` derived from the presence of `required`; the
validation pass sets only `isValid`, so a required field with an unfilled
default starts with `isValid = false` yet `error = none`, and a field
without rules starts with `isValid` equal to its required check. -/
theorem createInitialStateSnapshot_spec (formFieldParams : FormFieldParams)
    (hnd : (formFieldParams.map Prod.fst).Nodup) :
    ∃ s, createInitialStateSnapshot formFieldParams = some s ∧
      s.map Prod.fst = formFieldParams.map Prod.fst ∧
      ∀ key p, formFieldParams.lookup key = some p →
        ∃ fs, s.lookup key = some fs ∧
          fs.value = p.defaultValue ∧
          fs.label = p.label.getD "" ∧
          fs.helperText = p.helperText ∧
          fs.isInteracted = false ∧
          fs.error = none ∧
          fs.isRequired = p.required.isSome ∧
          (p.required.isSome = true →
            checkIfRequiredValueFilled p.defaultValue = false → fs.isValid = false) ∧
          (p.validation = none →
            fs.isValid
              = !(p.required.isSome && !checkIfRequiredValueFilled p.defaultValue)) := by
  have hbaselookup : ∀ k,
      (formFieldParams.map fun p => (p.1, initialFieldState p.2)).lookup k
        = (formFieldParams.lookup k).map initialFieldState :=
    fun k => lookup_map_snd formFieldParams initialFieldState k
  have hcover : ∀ k ∈ formFieldParams.map Prod.fst,
      (formFieldParams.lookup k).isSome = true ∧
      ((formFieldParams.map fun p => (p.1, initialFieldState p.2)).lookup k).isSome
        = true := by
    intro k hk
    have hp : (formFieldParams.lookup k).isSome = true :=
      (lookup_isSome_iff_mem_keys _ _).mpr hk
    refine ⟨hp, ?_⟩
    rw [hbaselookup]
    cases hlk : formFieldParams.lookup k with
    | none => rw [hlk] at hp; simp at hp
    | some _ => simp
  have hsome := initialValidationPass_isSome formFieldParams
    (formFieldParams.map Prod.fst)
    (formFieldParams.map fun p => (p.1, initialFieldState p.2)) hcover
  obtain ⟨s, hs⟩ := Option.isSome_iff_exists.mp hsome
  have hcreate : createInitialStateSnapshot formFieldParams = some s := by
    rw [createInitialStateSnapshot]
    exact hs
  refine ⟨s, hcreate, ?_, ?_⟩
  · rw [initialValidationPass_keys formFieldParams _ _ _ hs, List.map_map]
    exact List.map_congr_left fun p _ => rfl
  · intro key p hp
    have hB : (formFieldParams.map fun p => (p.1, initialFieldState p.2)).lookup key
        = some (initialFieldState p) := by
      rw [hbaselookup, hp]
      rfl
    obtain ⟨bv, hsk⟩ :=
      initialValidationPass_frame formFieldParams _ _ _ hs key (initialFieldState p) hB
    have hkmem : key ∈ formFieldParams.map Prod.fst := by
      refine (lookup_isSome_iff_mem_keys _ _).mp ?_
      rw [hp]
      rfl
    refine ⟨{ initialFieldState p with isValid := bv }, hsk,
      deepCloneValue_eq p.defaultValue, rfl, rfl, rfl, rfl, rfl, ?_, ?_⟩
    · intro hreq hunf
      obtain ⟨req, hreqeq⟩ := Option.isSome_iff_exists.mp hreq
      have hstable : ∀ st2 : FormState, st2.lookup key = some (initialFieldState p) →
          ∃ o, getFieldValidationOutcome key formFieldParams st2 = some o ∧
            o.isValid = false := by
        intro st2 hst2
        refine ⟨_, getFieldValidationOutcome_required key formFieldParams st2 p
          (initialFieldState p) req hp hst2 hreqeq ?_ ?_, rfl⟩
        · show p.required.isSome = true
          exact hreq
        · show checkIfRequiredValueFilled (deepCloneValue p.defaultValue) = false
          rw [deepCloneValue_eq]
          exact hunf
      have hfinal := initialValidationPass_stable formFieldParams key
        (initialFieldState p) false hstable (formFieldParams.map Prod.fst) hnd hkmem
        _ s hB hs
      rw [hfinal] at hsk
      exact (congrArg FormFieldState.isValid (Option.some.inj hsk)).symm
    · intro hval
      have hstable : ∀ st2 : FormState, st2.lookup key = some (initialFieldState p) →
          ∃ o, getFieldValidationOutcome key formFieldParams st2 = some o ∧
            o.isValid
              = !(p.required.isSome && !checkIfRequiredValueFilled p.defaultValue) := by
        intro st2 hst2
        rw [getFieldValidationOutcome_eq key formFieldParams st2 p
          (initialFieldState p) hp hst2]
        have hcond : ((initialFieldState p).isRequired
            && !checkIfRequiredValueFilled (initialFieldState p).value)
            = (p.required.isSome && !checkIfRequiredValueFilled p.defaultValue) := by
          show (p.required.isSome
            && !checkIfRequiredValueFilled (deepCloneValue p.defaultValue)) = _
          rw [deepCloneValue_eq]
        rw [hcond]
        cases hc : (p.required.isSome && !checkIfRequiredValueFilled p.defaultValue) with
        | true => exact ⟨_, by rw [if_pos rfl], rfl⟩
        | false => exact ⟨_, by rw [if_neg (by simp), hval], rfl⟩
      have hfinal := initialValidationPass_stable formFieldParams key
        (initialFieldState p)
        (!(p.required.isSome && !checkIfRequiredValueFilled p.defaultValue)) hstable
        (formFieldParams.map Prod.fst) hnd hkmem _ s hB hs
      rw [hfinal] at hsk
      exact (congrArg FormFieldState.isValid (Option.some.inj hsk)).symm

/-- Closed instance of C9 on the required-field fixture, including the
concrete evaluation: the fresh form is invalid yet shows no error. -/
theorem createInitialStateSnapshot_spec_witness :
    ([("e", requiredFieldParams)].map Prod.fst).Nodup
    ∧ createInitialStateSnapshot [("e", requiredFieldParams)]
        = some [("e", { label := "L", value := .str "", isValid := false,
                        isInteracted := false, isRequired := true,
                        helperText := none, error := none })]
    ∧ (∃ s, createInitialStateSnapshot [("e", requiredFieldParams)] = some s ∧
        s.map Prod.fst = [("e", requiredFieldParams)].map Prod.fst ∧
        ∀ key p, List.lookup key [("e", requiredFieldParams)] = some p →
          ∃ fs, s.lookup key = some fs ∧
            fs.value = p.defaultValue ∧
            fs.label = p.label.getD "" ∧
            fs.helperText = p.helperText ∧
            fs.isInteracted = false ∧
            fs.error = none ∧
            fs.isRequired = p.required.isSome ∧
            (p.required.isSome = true →
              checkIfRequiredValueFilled p.defaultValue = false → fs.isValid = false) ∧
            (p.validation = none →
              fs.isValid
                = !(p.required.isSome && !checkIfRequiredValueFilled p.defaultValue))) := by
  refine ⟨by simp, ?_, createInitialStateSnapshot_spec [("e", requiredFieldParams)] (by simp)⟩
  simp [createInitialStateSnapshot, initialValidationPass, setFieldIsValid,
    initialFieldState, getFieldValidationOutcome, checkIfRequiredValueFilled,
    deepCloneValue, List.lookup, requiredFieldParams]

/-- C5: with a positive configured delay, editing a field and then editing
it again before the delay elapses never exposes a fresh error meanwhile —
both live states keep the pre-edit errors — the second edit invalidates the
first edit's generation token and replaces its timeout, and the single
commit performed by the surviving timeout installs the full validation of
the final state only, so the intermediate value's error never becomes
visible and firing again changes nothing. -/
theorem debounce_commits_only_final (formFieldParams : FormFieldParams)
    (δ : ℚ) (key : String) (v1 v2 : Value) (h0 h1 h2 : HookState)
    (hδ : 0 < δ)
    (hset1 : set formFieldParams δ key v1 true h0 = some h1)
    (hset2 : set formFieldParams δ key v2 true h1 = some h2) :
    (∀ k, (h1.state.lookup k).map FormFieldState.error
        = (h0.state.lookup k).map FormFieldState.error) ∧
    (∀ k, (h2.state.lookup k).map FormFieldState.error
        = (h0.state.lookup k).map FormFieldState.error) ∧
    h1.timer = some h1.runId ∧ h2.timer = some h2.runId ∧
    h2.runId = h1.runId + 1 ∧
    ∃ st2 nextState allValid,
      updateFieldValue key v2 true h1.state = some st2 ∧
      applyValidation st2 formFieldParams (some true) = some (nextState, allValid) ∧
      h2.pending = some nextState ∧
      fireTimer h2 = { h2 with timer := none, pending := none, state := nextState } ∧
      fireTimer (fireTimer h2) = fireTimer h2 ∧
      ∃ fs outcome, st2.lookup key = some fs ∧ fs.value = v2 ∧
        getFieldValidationOutcome key formFieldParams st2 = some outcome ∧
        nextState.lookup key
          = some { fs with isValid := outcome.isValid, error := outcome.error } := by
  obtain ⟨st1, ns1, b1, hupd1, happ1, hrid1, htm1, hpend1, hkeys1, herr1⟩ :=
    set_delayed_spec formFieldParams δ key v1 h0 h1 hδ hset1
  obtain ⟨st2, ns2, b2, hupd2, happ2, hrid2, htm2, hpend2, hkeys2, herr2⟩ :=
    set_delayed_spec formFieldParams δ key v2 h1 h2 hδ hset2
  refine ⟨herr1, fun k => (herr2 k).trans (herr1 k), htm1, htm2, hrid2,
    st2, ns2, b2, hupd2, happ2, hpend2, fireTimer_commit h2 ns2 htm2 hpend2, ?_, ?_⟩
  · rw [fireTimer_commit h2 ns2 htm2 hpend2]
    exact fireTimer_no_timer _ rfl
  · have hlk : (h1.state.lookup key).isSome = true :=
      updateFieldValue_isSome key v2 true h1.state st2 hupd2
    obtain ⟨fs1, hfs1⟩ := Option.isSome_iff_exists.mp hlk
    have hst2 : st2.lookup key
        = some { fs1 with value := v2, isInteracted := fs1.isInteracted || true } := by
      rw [updateFieldValue_lookup key v2 true h1.state st2 hupd2 key, hfs1]
      simp
    rw [applyValidation_eq_aux] at happ2
    obtain ⟨outcome, hout, hns⟩ :=
      applyValidationAux_lookup formFieldParams st2 (some true) st2 ns2 b2 happ2
        key _ hst2
    refine ⟨_, outcome, hst2, rfl, hout, ?_⟩
    simpa using hns

/-- Closed instance of C5: with delay 1/2, setting the guarded field to a
failing value and immediately to a passing value keeps the live error
`none` throughout, and the commit exposes the passing outcome only. -/
theorem debounce_commits_only_final_witness :
    (0 : ℚ) < 1 / 2
    ∧ set guardedFormParams (1 / 2) "a" (.str "bad") true idleHook
        = some debouncedHook1
    ∧ set guardedFormParams (1 / 2) "a" (.str "good") true debouncedHook1
        = some debouncedHook2
    ∧ ((∀ k, (debouncedHook1.state.lookup k).map FormFieldState.error
          = (idleHook.state.lookup k).map FormFieldState.error) ∧
      (∀ k, (debouncedHook2.state.lookup k).map FormFieldState.error
          = (idleHook.state.lookup k).map FormFieldState.error) ∧
      debouncedHook1.timer = some debouncedHook1.runId ∧
      debouncedHook2.timer = some debouncedHook2.runId ∧
      debouncedHook2.runId = debouncedHook1.runId + 1 ∧
      ∃ st2 nextState allValid,
        updateFieldValue "a" (.str "good") true debouncedHook1.state = some st2 ∧
        applyValidation st2 guardedFormParams (some true) = some (nextState, allValid) ∧
        debouncedHook2.pending = some nextState ∧
        fireTimer debouncedHook2
          = { debouncedHook2 with timer := none, pending := none, state := nextState } ∧
        fireTimer (fireTimer debouncedHook2) = fireTimer debouncedHook2 ∧
        ∃ fs outcome, st2.lookup "a" = some fs ∧ fs.value = .str "good" ∧
          getFieldValidationOutcome "a" guardedFormParams st2 = some outcome ∧
          nextState.lookup "a"
            = some { fs with isValid := outcome.isValid, error := outcome.error }) := by
  have hδ : (0 : ℚ) < 1 / 2 := by norm_num
  have hset1 : set guardedFormParams (1 / 2) "a" (.str "bad") true idleHook
      = some debouncedHook1 := by
    rw [set]
    have hupd : updateFieldValue "a" (.str "bad") true idleHook.state
        = some [("a", badFieldState)] := by
      simp [updateFieldValue, idleHook, plainFormState, plainFieldState, List.lookup,
        badFieldState]
    rw [hupd, if_pos rfl]
    simp only [scheduleValidationRun]
    have happ : applyValidation [("a", badFieldState)] guardedFormParams (some true)
        = some (badErrorState, false) := by
      rw [applyValidation_eq_aux]
      simp [applyValidationAux, getFieldValidationOutcome, guardedFormParams,
        guardedFieldParams, notBadRule, badFieldState, badErrorState,
        checkIfRequiredValueFilled, List.lookup, getOrderedValidationEntries,
        decorateValidationEntries, List.enum, List.enumFrom, List.mergeSort,
        runValidationRules]
    simp only [clearPendingValidation, happ]
    norm_num
    simp [withPreviousErrors, List.lookup, badErrorState, badFieldState, idleHook,
      plainFormState, plainFieldState, debouncedHook1]
  have hset2 : set guardedFormParams (1 / 2) "a" (.str "good") true debouncedHook1
      = some debouncedHook2 := by
    rw [set]
    have hupd : updateFieldValue "a" (.str "good") true debouncedHook1.state
        = some [("a", goodFieldState)] := by
      simp [updateFieldValue, debouncedHook1, badFieldState, List.lookup,
        goodFieldState]
    rw [hupd, if_pos rfl]
    simp only [scheduleValidationRun]
    have happ : applyValidation [("a", goodFieldState)] guardedFormParams (some true)
        = some (goodValidState, true) := by
      rw [applyValidation_eq_aux]
      simp [applyValidationAux, getFieldValidationOutcome, guardedFormParams,
        guardedFieldParams, notBadRule, goodFieldState, goodValidState,
        checkIfRequiredValueFilled, List.lookup, getOrderedValidationEntries,
        decorateValidationEntries, List.enum, List.enumFrom, List.mergeSort,
        runValidationRules]
    simp only [clearPendingValidation, happ]
    norm_num
    simp [withPreviousErrors, List.lookup, goodValidState, goodFieldState,
      debouncedHook1, debouncedHook2]
  exact ⟨hδ, hset1, hset2,
    debounce_commits_only_final guardedFormParams (1 / 2) "a" (.str "bad")
      (.str "good") idleHook debouncedHook1 debouncedHook2 hδ hset1 hset2⟩

/-- C6: `checkIfAllValid` with `commitState` true (the default) bumps the
generation, cancels any pending timeout and staged snapshot, synchronously
commits a fresh full validation pass over the current state — each field's
`isValid` set to its fresh outcome and its error replaced per the engine's
rules with `updateErrorType` resolved to its default `true` — and returns
that pass's overall validity, the conjunction of the committed `isValid`
flags. -/
theorem checkIfAllValid_commits (formFieldParams : FormFieldParams)
    (updateErrorTypeOpt commitStateOpt : Option Bool) (h : HookState)
    (allValid : Bool) (h2 : HookState)
    (hcommit : commitStateOpt.getD true = true)
    (hcall : checkIfAllValid formFieldParams updateErrorTypeOpt commitStateOpt h
      = some (allValid, h2)) :
    h2.timer = none ∧ h2.pending = none ∧ h2.runId = h.runId + 1 ∧
    ∃ nextState,
      applyValidation h.state formFieldParams (some (updateErrorTypeOpt.getD true))
        = some (nextState, allValid) ∧
      h2.state = nextState ∧
      allValid = nextState.all (fun p => p.2.isValid) ∧
      ∀ key fs, h.state.lookup key = some fs →
        ∃ outcome,
          getFieldValidationOutcome key formFieldParams h.state = some outcome ∧
          nextState.lookup key
            = some { fs with
                     isValid := outcome.isValid,
                     error := if updateErrorTypeOpt.getD true then outcome.error
                              else fs.error } := by
  cases happ : applyValidation h.state formFieldParams
      (some (updateErrorTypeOpt.getD true)) with
  | none =>
    simp [checkIfAllValid, clearPendingValidation, hcommit, happ] at hcall
  | some p =>
    obtain ⟨nextState, av⟩ := p
    simp only [checkIfAllValid, clearPendingValidation, hcommit, happ, Bool.not_true,
      Bool.false_eq_true, if_false, Option.some.injEq, Prod.mk.injEq] at hcall
    obtain ⟨hav, hh2⟩ := hcall
    rw [← hh2]
    refine ⟨rfl, rfl, rfl, nextState, by rw [hav], rfl, ?_, ?_⟩
    · rw [← hav]
      rw [applyValidation_eq_aux] at happ
      exact applyValidationAux_allValid _ _ _ _ _ _ happ
    · intro key fs hl
      rw [applyValidation_eq_aux] at happ
      obtain ⟨outcome, hout, hns⟩ :=
        applyValidationAux_lookup _ _ _ _ _ _ happ key fs hl
      exact ⟨outcome, hout, by simpa using hns⟩

/-- Closed instance of C6: committing on a hook with a pending timeout and
staged state cancels both and installs the fresh pass. -/
theorem checkIfAllValid_commits_witness :
    (none : Option Bool).getD true = true
    ∧ checkIfAllValid plainFormParams none none staleHook
        = some (true, committedHook)
    ∧ (committedHook.timer = none ∧ committedHook.pending = none ∧
      committedHook.runId = staleHook.runId + 1 ∧
      ∃ nextState,
        applyValidation staleHook.state plainFormParams
            (some ((none : Option Bool).getD true)) = some (nextState, true) ∧
        committedHook.state = nextState ∧
        true = nextState.all (fun p => p.2.isValid) ∧
        ∀ key fs, staleHook.state.lookup key = some fs →
          ∃ outcome,
            getFieldValidationOutcome key plainFormParams staleHook.state
              = some outcome ∧
            nextState.lookup key
              = some { fs with
                       isValid := outcome.isValid,
                       error := if (none : Option Bool).getD true then outcome.error
                                else fs.error }) := by
  have happ : applyValidation plainFormState plainFormParams (some true)
      = some (plainFormValidated, true) := by
    rw [applyValidation_eq_aux]
    simp [applyValidationAux, getFieldValidationOutcome, plainFormState,
      plainFormParams, plainFieldParams, plainFieldState, plainFormValidated,
      checkIfRequiredValueFilled, List.lookup]
  have hcall : checkIfAllValid plainFormParams none none staleHook
      = some (true, committedHook) := by
    simp only [checkIfAllValid, clearPendingValidation, staleHook, committedHook]
    simp [happ]
  exact ⟨rfl, hcall,
    checkIfAllValid_commits plainFormParams none none staleHook true committedHook
      rfl hcall⟩

/-- C7: `checkIfAllValid` with `commitState = false` is read-only: it
returns the same overall validity as a committing pass would over the same
current state, but the hook — live state, displayed errors, timer, staged
snapshot and generation counter — is returned completely unchanged, so
repeated calls without an intervening `set` never change state. -/
theorem checkIfAllValid_readonly (formFieldParams : FormFieldParams)
    (updateErrorTypeOpt : Option Bool) (h : HookState) (allValid : Bool)
    (h2 : HookState)
    (hcall : checkIfAllValid formFieldParams updateErrorTypeOpt (some false) h
      = some (allValid, h2)) :
    h2 = h ∧
    checkIfAllValid formFieldParams updateErrorTypeOpt (some false) h
      = some (allValid, h) ∧
    ∀ allValid2 h3,
      checkIfAllValid formFieldParams updateErrorTypeOpt (some true) h
        = some (allValid2, h3) → allValid2 = allValid := by
  cases happ : applyValidation h.state formFieldParams
      (some (updateErrorTypeOpt.getD true)) with
  | none => simp [checkIfAllValid, happ] at hcall
  | some p =>
    obtain ⟨ns, av⟩ := p
    simp only [checkIfAllValid, Option.getD_some, Bool.not_false, if_true, happ,
      Option.some.injEq, Prod.mk.injEq] at hcall
    obtain ⟨hav, hh2⟩ := hcall
    refine ⟨hh2.symm, ?_, ?_⟩
    · simp only [checkIfAllValid, Option.getD_some, Bool.not_false, if_true, happ,
        Option.some.injEq, Prod.mk.injEq]
      exact ⟨hav, trivial⟩
    · intro allValid2 h3 hc2
      simp only [checkIfAllValid, clearPendingValidation, Option.getD_some,
        Bool.not_true, Bool.false_eq_true, if_false, happ, Option.some.injEq,
        Prod.mk.injEq] at hc2
      rw [← hc2.1, ← hav]

/-- Closed instance of C7: the read-only check on a hook with an in-flight
debounce returns the validity and the hook untouched. -/
theorem checkIfAllValid_readonly_witness :
    checkIfAllValid plainFormParams none (some false) staleHook
        = some (true, staleHook)
    ∧ (staleHook = staleHook ∧
      checkIfAllValid plainFormParams none (some false) staleHook
        = some (true, staleHook) ∧
      ∀ allValid2 h3,
        checkIfAllValid plainFormParams none (some true) staleHook
          = some (allValid2, h3) → allValid2 = true) := by
  have happ : applyValidation plainFormState plainFormParams (some true)
      = some (plainFormValidated, true) := by
    rw [applyValidation_eq_aux]
    simp [applyValidationAux, getFieldValidationOutcome, plainFormState,
      plainFormParams, plainFieldParams, plainFieldState, plainFormValidated,
      checkIfRequiredValueFilled, List.lookup]
  have hcall : checkIfAllValid plainFormParams none (some false) staleHook
      = some (true, staleHook) := by
    simp only [checkIfAllValid, staleHook]
    simp [happ]
  exact ⟨hcall,
    checkIfAllValid_readonly plainFormParams none staleHook true staleHook hcall⟩

/-- C8 counterexample: `"b"` is not among the declared keys, and `set` on it
crashes (the updater writes `_state[key].value` on `undefined`, a TypeError
— `none` in the model); in particular no final hook state exists, refuting
the claim's "state unchanged and no exception" at this input. -/
theorem set_unknown_key_crashes :
    List.lookup "b" plainFormState = none
    ∧ set plainFormParams DEFAULT_ERROR_DELAY_SECONDS "b" (Value.str "x") true
        idleHook = none
    ∧ ¬ ∃ h2, set plainFormParams DEFAULT_ERROR_DELAY_SECONDS "b" (Value.str "x")
        true idleHook = some h2 := by
  refine ⟨rfl, rfl, ?_⟩
  rintro ⟨h2, hh2⟩
  rw [show set plainFormParams DEFAULT_ERROR_DELAY_SECONDS "b" (Value.str "x") true
      idleHook = none from rfl] at hh2
  exact absurd hh2 (by simp)

/-- C8 amended: a key that is not among the declared field keys makes `set`
crash with a TypeError (the updater dereferences the missing field state;
`none` in the model), and makes `setMany` crash whenever its partial data
addresses such a key — the operations are not silent no-ops. -/
theorem set_unknown_key_raises (formFieldParams : FormFieldParams) (δ : ℚ)
    (key : String) (value : Value) (setInteracted : Bool) (h : HookState)
    (hunknown : h.state.lookup key = none) :
    set formFieldParams δ key value setInteracted h = none ∧
    ∀ data : List (String × Value), key ∈ data.map Prod.fst →
      setMany formFieldParams δ data setInteracted h = none := by
  constructor
  · simp [set, updateFieldValue, hunknown]
  · intro data hmem
    simp [setMany,
      updateManyFieldValues_unknown setInteracted data h.state key hunknown hmem]

/-- Closed instance of the amended C8 on the one-field fixture. -/
theorem set_unknown_key_raises_witness :
    List.lookup "b" idleHook.state = none
    ∧ "b" ∈ ([("b", Value.str "x")] : List (String × Value)).map Prod.fst
    ∧ set plainFormParams (1 / 2) "b" (Value.str "x") true idleHook = none
    ∧ setMany plainFormParams (1 / 2) [("b", Value.str "x")] true idleHook = none := by
  have hu : List.lookup "b" idleHook.state = none := rfl
  have hm : "b" ∈ ([("b", Value.str "x")] : List (String × Value)).map Prod.fst := by
    simp
  obtain ⟨h1, h2⟩ :=
    set_unknown_key_raises plainFormParams (1 / 2) "b" (Value.str "x") true idleHook hu
  exact ⟨hu, hm, h1, h2 _ hm⟩

end UseFormState


